import Mathlib

/-!
KraftKit: the package-manager registry and the umbrella multiplexer

A shallow embedding of `packmanager/manager.go` and `packmanager/umbrella.go`,
followed by the kernel-name functions of `unikraft/target/target.go` and by
`normalizeProjectName` of `unikraft/app/normalize.go`.

For the package managers:

* Go values of type `error` are `Option GoError` (`none` is the nil error).
* A Go result pair `(T, error)` is kept as a pair, so that "an error together
  with data" stays expressible.
* Backends are stateful collaborators: every interface method is a state
  transformer on an arbitrary world `σ`.
* The package-level map `packageManagers` is an association list; the order
  in which a `range` statement yields its entries is not fixed by Go, so the
  umbrella's loops take the yielded sequence of entries as an argument.
* The umbrella's loops record what they do (log lines, backend invocations)
  in an event trace that backends cannot touch.
-/

set_option autoImplicit false

namespace packmanager

/-! ## Collaborator value objects -/

/-- The type `pack.ContextKey` is a string type: `UmbrellaContext` is declared
as the constant `"umbrella"` of that type. -/
abbrev ContextKey := String

/-- A `context.Context`; the umbrella only hands it on, so a tag suffices. -/
structure Context where
  id : Nat
  deriving DecidableEq, Repr

/-- A non-nil Go `error`, identified by its message text. -/
structure GoError where
  text : String
  deriving DecidableEq, Repr

/-- The call `fmt.Errorf(prefix + "%s", arg)` with a string argument. -/
def Errorf (pre arg : String) : GoError := ⟨pre ++ arg⟩

/-- Modelled from the spec: `component.Component` is declared outside the given
sources; a value object exposing at least a `Name()` accessor. -/
structure Component where
  Name : String
  deriving DecidableEq, Repr

/-- Modelled from the spec: `pack.Package` is declared outside the given
sources; a value object exposing at least a `Name()` accessor. -/
structure Package where
  Name : String
  deriving DecidableEq, Repr

/-- Modelled from the spec: `CatalogQuery` is declared outside the given
sources; an uninterpreted filter handed unmodified to every backend. -/
structure CatalogQuery where
  tag : Nat
  deriving DecidableEq, Repr

/-- Modelled from the spec: `PackOption` is declared outside the given sources;
a configuration object passed through unmodified. -/
structure PackOption where
  tag : Nat
  deriving DecidableEq, Repr

/-- Modelled from the spec: `UnpackOption` is declared outside the given
sources; a configuration object passed through unmodified. -/
structure UnpackOption where
  tag : Nat
  deriving DecidableEq, Repr

/-! ## The backend contract (`manager.go`) -/

/-- The interface `PackageManager`.  `ι` is the type of the interface values
(the backends themselves, compared by identity) and the structure gives the
nine methods of each of them.  Every method that may perform I/O transforms
the world `σ`; `Format` is a pure accessor.  A nil interface value is
`none : Option ι`. -/
structure PackageManager (ι σ : Type) where
  Update : ι → Context → σ → Option GoError × σ
  Pack : ι → Context → Component → List PackOption → σ → (List Package × Option GoError) × σ
  Unpack : ι → Context → Package → List UnpackOption → σ →
    (List Component × Option GoError) × σ
  Catalog : ι → Context → CatalogQuery → σ → (List Package × Option GoError) × σ
  AddSource : ι → Context → String → σ → Option GoError × σ
  RemoveSource : ι → Context → String → σ → Option GoError × σ
  IsCompatible : ι → Context → String → σ → (Option ι × Option GoError) × σ
  From : ι → String → σ → (Option ι × Option GoError) × σ
  Format : ι → String

/-! ## The registry (`umbrella.go`, package level) -/

/-- The Go type `map[pack.ContextKey]PackageManager`, as an association list. -/
abbrev Registry (ι : Type) := List (ContextKey × ι)

namespace Registry

variable {ι : Type}

/-- The Go map read `v, ok := m[k]`: `some v` when `ok`, `none` otherwise. -/
def lookup : Registry ι → ContextKey → Option ι
  | [], _ => none
  | (k', v) :: rest, k => if k' = k then some v else lookup rest k

/-- The Go map write `m[k] = v`: replaces the value of a key that is present,
adds the entry otherwise. -/
def assign : Registry ι → ContextKey → ι → Registry ι
  | [], k, v => [(k, v)]
  | (k', v') :: rest, k, v =>
    if k' = k then (k, v) :: rest else (k', v') :: assign rest k v

end Registry

/-- The initial value of the package variable: `make(map[pack.ContextKey]PackageManager)`. -/
def packageManagersInit (ι : Type) : Registry ι := []

/-- The constant `UmbrellaContext`. -/
def UmbrellaContext : ContextKey := "umbrella"

/-- Function `PackageManagers`: returns the package variable itself. -/
def PackageManagers {ι : Type} (packageManagers : Registry ι) : Registry ι :=
  packageManagers

/-- Function `RegisterPackageManager`, with the package variable `packageManagers`
passed in and its value after the call returned next to the error. -/
def RegisterPackageManager {ι σ : Type} (impl : PackageManager ι σ) (ctxk : ContextKey)
    (manager : ι) (packageManagers : Registry ι) : Option GoError × Registry ι :=
  match packageManagers.lookup ctxk with
  | some _ =>
    (some (Errorf "package manager already registered: " (impl.Format manager)),
      packageManagers)
  | none =>
    (none, packageManagers.assign ctxk manager)

/-- A sequence of `RegisterPackageManager` calls, made one after another: the
errors returned, in call order, and the registry left by the last call. -/
def registerAll {ι σ : Type} (impl : PackageManager ι σ) :
    List (ContextKey × ι) → Registry ι → List (Option GoError) × Registry ι
  | [], reg => ([], reg)
  | (k, m) :: calls, reg =>
    let r := RegisterPackageManager impl k m reg
    let rs := registerAll impl calls r.2
    (r.1 :: rs.1, rs.2)

/-- A sequence `entries` is a possible iteration of the map `reg` by a `range`
statement: it yields every entry of the map once, in some order. -/
def IsRange {ι : Type} (reg entries : Registry ι) : Prop :=
  List.Perm entries reg

/-! ## Observable behaviour of a run -/

/-- A backend method call made by the umbrella, with the arguments passed. -/
inductive Call where
  | Update (ctx : Context)
  | AddSource (ctx : Context) (source : String)
  | RemoveSource (ctx : Context) (source : String)
  | Pack (ctx : Context) (entity : Component) (opts : List PackOption)
  | Unpack (ctx : Context) (entity : Package) (opts : List UnpackOption)
  | Catalog (ctx : Context) (query : CatalogQuery)
  | IsCompatible (ctx : Context) (source : String)
  deriving DecidableEq, Repr

/-- What a run of the umbrella does, step by step: a line written with
`log.G(ctx).Tracef`, or the invocation of a method of the backend registered
under `key`. -/
inductive Event where
  | Tracef (ctx : Context) (text : String)
  | Invoke (key : ContextKey) (call : Call)
  deriving DecidableEq, Repr

/-- The state of a run: the world the backends act on, and the events so far
(oldest first). -/
structure Run (σ : Type) where
  world : σ
  trace : List Event

namespace Run

variable {σ α : Type}

/-- Record an event. -/
def emit (x : Run σ) (e : Event) : Run σ :=
  ⟨x.world, x.trace ++ [e]⟩

/-- Invoke the backend method `f` of the backend registered under `k`: the
invocation is recorded and the method runs on the current world. -/
def invoke (x : Run σ) (k : ContextKey) (c : Call) (f : σ → α × σ) : α × Run σ :=
  ((f x.world).1, ⟨(f x.world).2, x.trace ++ [Event.Invoke k c]⟩)

end Run

/-- The backend invocations of a trace, in order. -/
def invocations : List Event → List (ContextKey × Call)
  | [] => []
  | Event.Invoke k c :: rest => (k, c) :: invocations rest
  | Event.Tracef _ _ :: rest => invocations rest

/-! ## The umbrella (`umbrella.go`)

Each method takes `entries`, the sequence yielded by `range packageManagers`,
and the state of the run, next to the method table `impl` through which the
calls on a backend are dispatched; the key of an entry, which the Go loops discard,
only labels the recorded invocation. -/

namespace umbrella

variable {ι σ : Type} (impl : PackageManager ι σ)

/-- Method `umbrella.From`. -/
def From (sub : String) : Registry ι → Option ι × Option GoError
  | [] => (none, some (Errorf "unknown package manager: " sub))
  | (_, manager) :: rest =>
    if impl.Format manager = sub then (some manager, none) else From sub rest

/-- Method `umbrella.Update`. -/
def Update (ctx : Context) : Registry ι → Run σ → Option GoError × Run σ
  | [], x => (none, x)
  | (k, manager) :: rest, x =>
    let r := x.invoke k (Call.Update ctx) (impl.Update manager ctx)
    match r.1 with
    | some err => (some err, r.2)
    | none => Update ctx rest r.2

/-- Method `umbrella.AddSource`. -/
def AddSource (ctx : Context) (source : String) : Registry ι → Run σ → Option GoError × Run σ
  | [], x => (none, x)
  | (k, manager) :: rest, x =>
    let x0 := x.emit
      (Event.Tracef ctx ("Adding source " ++ source ++ " via " ++ impl.Format manager ++ "..."))
    let r := x0.invoke k (Call.AddSource ctx source) (impl.AddSource manager ctx source)
    match r.1 with
    | some err => (some err, r.2)
    | none => AddSource ctx source rest r.2

/-- Method `umbrella.RemoveSource`. -/
def RemoveSource (ctx : Context) (source : String) :
    Registry ι → Run σ → Option GoError × Run σ
  | [], x => (none, x)
  | (k, manager) :: rest, x =>
    let x0 := x.emit
      (Event.Tracef ctx ("Removing source " ++ source ++ " via " ++ impl.Format manager ++ "..."))
    let r := x0.invoke k (Call.RemoveSource ctx source) (impl.RemoveSource manager ctx source)
    match r.1 with
    | some err => (some err, r.2)
    | none => RemoveSource ctx source rest r.2

/-- The loop of `umbrella.Pack`, with the slice `ret` built so far. -/
def PackLoop (ctx : Context) (entity : Component) (opts : List PackOption) :
    Registry ι → List Package → Run σ → (List Package × Option GoError) × Run σ
  | [], ret, x => ((ret, none), x)
  | (k, manager) :: rest, ret, x =>
    let x0 := x.emit
      (Event.Tracef ctx ("Packing " ++ entity.Name ++ " via " ++ impl.Format manager ++ "..."))
    let r := x0.invoke k (Call.Pack ctx entity opts) (impl.Pack manager ctx entity opts)
    match r.1.2 with
    | some err => (([], some err), r.2)
    | none => PackLoop ctx entity opts rest (ret ++ r.1.1) r.2

/-- Method `umbrella.Pack`: `ret` starts as the nil slice. -/
def Pack (ctx : Context) (entity : Component) (opts : List PackOption)
    (entries : Registry ι) (x : Run σ) : (List Package × Option GoError) × Run σ :=
  PackLoop impl ctx entity opts entries [] x

/-- The loop of `umbrella.Unpack`, with the slice `ret` built so far. -/
def UnpackLoop (ctx : Context) (entity : Package) (opts : List UnpackOption) :
    Registry ι → List Component → Run σ → (List Component × Option GoError) × Run σ
  | [], ret, x => ((ret, none), x)
  | (k, manager) :: rest, ret, x =>
    let x0 := x.emit
      (Event.Tracef ctx ("Unpacking " ++ entity.Name ++ " via " ++ impl.Format manager ++ "..."))
    let r := x0.invoke k (Call.Unpack ctx entity opts) (impl.Unpack manager ctx entity opts)
    match r.1.2 with
    | some err => (([], some err), r.2)
    | none => UnpackLoop ctx entity opts rest (ret ++ r.1.1) r.2

/-- Method `umbrella.Unpack`: `ret` starts as the nil slice. -/
def Unpack (ctx : Context) (entity : Package) (opts : List UnpackOption)
    (entries : Registry ι) (x : Run σ) : (List Component × Option GoError) × Run σ :=
  UnpackLoop impl ctx entity opts entries [] x

/-- The loop of `umbrella.Catalog`, with the slice `packages` built so far. -/
def CatalogLoop (ctx : Context) (query : CatalogQuery) :
    Registry ι → List Package → Run σ → (List Package × Option GoError) × Run σ
  | [], packages, x => ((packages, none), x)
  | (k, manager) :: rest, packages, x =>
    let r := x.invoke k (Call.Catalog ctx query) (impl.Catalog manager ctx query)
    match r.1.2 with
    | some err => (([], some err), r.2)
    | none => CatalogLoop ctx query rest (packages ++ r.1.1) r.2

/-- Method `umbrella.Catalog`: `packages` starts as the nil slice. -/
def Catalog (ctx : Context) (query : CatalogQuery)
    (entries : Registry ι) (x : Run σ) : (List Package × Option GoError) × Run σ :=
  CatalogLoop impl ctx query entries [] x

/-- Method `umbrella.IsCompatible`. -/
def IsCompatible (ctx : Context) (source : String) :
    Registry ι → Run σ → (Option ι × Option GoError) × Run σ
  | [], x =>
    ((none, some (Errorf "cannot find compatible package manager for source: " source)), x)
  | (k, manager) :: rest, x =>
    let r := x.invoke k (Call.IsCompatible ctx source) (impl.IsCompatible manager ctx source)
    match r.1.2 with
    | none => ((r.1.1, none), r.2)
    | some _ => IsCompatible ctx source rest r.2

/-- Method `umbrella.Format`. -/
def Format : String := UmbrellaContext

end umbrella

/-! ## Notions used to state the properties of a loop -/

section Notions

variable {ι σ α β : Type}

/-- The values returned when the backends of `entries` are invoked one after
another with the call `op`, each in the world left by the one before it. -/
def returns (op : ι → σ → α × σ) : Registry ι → σ → List α
  | [], _ => []
  | e :: rest, w => (op e.2 w).1 :: returns op rest (op e.2 w).2

/-- The world left when the backends of `entries` have been invoked one after
another with the call `op`. -/
def worldAfter (op : ι → σ → α × σ) : Registry ι → σ → σ
  | [], w => w
  | e :: rest, w => worldAfter op rest (op e.2 w).2

/-- Whether the call `op` fails on a backend does not depend on the world in
which it is made. -/
def OutcomeFixed (op : ι → σ → Option GoError × σ) (reg : Registry ι) : Prop :=
  ∀ e ∈ reg, ∀ w w' : σ, (op e.2 w).1 = none ↔ (op e.2 w').1 = none

/-- What the call `op` returns on a backend does not depend on the world in
which it is made. -/
def ResultFixed (op : ι → σ → α × σ) (reg : Registry ι) : Prop :=
  ∀ e ∈ reg, ∀ w w' : σ, (op e.2 w).1 = (op e.2 w').1

/-- The error part of a call that returns a slice and an error. -/
def errOf (op : ι → σ → (List β × Option GoError) × σ) : ι → σ → Option GoError × σ :=
  fun m w => ((op m w).1.2, (op m w).2)

/-- The events of one loop iteration on the entry `e`: the lines logged before
the call, then the invocation. -/
def stepEvents (pre : ContextKey × ι → List Event) (call : Call) (e : ContextKey × ι) :
    List Event :=
  pre e ++ [Event.Invoke e.1 call]

/-- The common shape of the loops of `Update`, `AddSource` and `RemoveSource`:
log `pre`, invoke `op`, return at the first error. -/
def errLoop (op : ι → σ → Option GoError × σ) (pre : ContextKey × ι → List Event)
    (call : Call) : Registry ι → Run σ → Option GoError × Run σ
  | [], x => (none, x)
  | e :: rest, x =>
    match (op e.2 x.world).1 with
    | some err => (some err, ⟨(op e.2 x.world).2, x.trace ++ stepEvents pre call e⟩)
    | none => errLoop op pre call rest ⟨(op e.2 x.world).2, x.trace ++ stepEvents pre call e⟩

/-- The common shape of the loops of `Pack`, `Unpack` and `Catalog`: log `pre`,
invoke `op`, return at the first error, append the slice returned otherwise. -/
def listLoop (op : ι → σ → (List β × Option GoError) × σ) (pre : ContextKey × ι → List Event)
    (call : Call) : Registry ι → List β → Run σ → (List β × Option GoError) × Run σ
  | [], ret, x => ((ret, none), x)
  | e :: rest, ret, x =>
    match (op e.2 x.world).1.2 with
    | some err => (([], some err), ⟨(op e.2 x.world).2, x.trace ++ stepEvents pre call e⟩)
    | none =>
      listLoop op pre call rest (ret ++ (op e.2 x.world).1.1)
        ⟨(op e.2 x.world).2, x.trace ++ stepEvents pre call e⟩

end Notions

/-! ## A sample set of backends

Backends named by strings, acting on a world that logs the calls received.
`"bad"` fails every call, handing back data next to the error; `"proxy"`
answers `IsCompatible` with the backend `"oci"`; `"once"` fails `Update` when
any call was received before; every other backend succeeds. -/

/-- The error of the failing sample backend. -/
def sampleErr : GoError := ⟨"index unreachable"⟩

/-- The error returned by the sample backend `m`. -/
def sampleErrOf (m : String) : Option GoError :=
  if m = "bad" then some sampleErr else none

/-- Sample `Update`. -/
def sampleUpdate (m : String) (_ : Context) (w : List String) : Option GoError × List String :=
  (if m = "once" ∧ w ≠ [] then some sampleErr else sampleErrOf m, w ++ [m ++ ".Update"])

/-- Sample `Pack`. -/
def samplePack (m : String) (_ : Context) (entity : Component) (_ : List PackOption)
    (w : List String) : (List Package × Option GoError) × List String :=
  (([⟨entity.Name ++ "." ++ m⟩], sampleErrOf m), w ++ [m ++ ".Pack"])

/-- Sample `Unpack`. -/
def sampleUnpack (m : String) (_ : Context) (entity : Package) (_ : List UnpackOption)
    (w : List String) : (List Component × Option GoError) × List String :=
  (([⟨entity.Name ++ "/" ++ m⟩], sampleErrOf m), w ++ [m ++ ".Unpack"])

/-- Sample `Catalog`. -/
def sampleCatalog (m : String) (_ : Context) (_ : CatalogQuery)
    (w : List String) : (List Package × Option GoError) × List String :=
  (([⟨m ++ "-1"⟩, ⟨m ++ "-2"⟩], sampleErrOf m), w ++ [m ++ ".Catalog"])

/-- Sample `AddSource`. -/
def sampleAddSource (m : String) (_ : Context) (_ : String) (w : List String) :
    Option GoError × List String :=
  (sampleErrOf m, w ++ [m ++ ".AddSource"])

/-- Sample `RemoveSource`. -/
def sampleRemoveSource (m : String) (_ : Context) (_ : String) (w : List String) :
    Option GoError × List String :=
  (sampleErrOf m, w ++ [m ++ ".RemoveSource"])

/-- Sample `IsCompatible`. -/
def sampleIsCompatible (m : String) (_ : Context) (_ : String) (w : List String) :
    (Option String × Option GoError) × List String :=
  (if m = "bad" then (none, some sampleErr) else if m = "proxy" then (some "oci", none)
    else (some m, none), w ++ [m ++ ".IsCompatible"])

/-- Sample `From`. -/
def sampleFrom (_ : String) (sub : String) (w : List String) :
    (Option String × Option GoError) × List String :=
  ((none, some (Errorf "no sub-manager: " sub)), w)

/-- The method table of the sample backends; `Format` is the backend's name. -/
def sample : PackageManager String (List String) :=
  { Update := sampleUpdate, Pack := samplePack, Unpack := sampleUnpack,
    Catalog := sampleCatalog, AddSource := sampleAddSource,
    RemoveSource := sampleRemoveSource, IsCompatible := sampleIsCompatible,
    From := sampleFrom, Format := fun m => m }

/-- A `Pack` whose answer depends on the world: the backend "cache" returns one
package per call recorded in the world so far, every other backend one package
of its own. -/
def cachingPack (m : String) (_ : Context) (entity : Component) (_ : List PackOption)
    (w : List String) : (List Package × Option GoError) × List String :=
  ((if m = "cache" then w.map (fun n => (⟨n⟩ : Package)) else [⟨entity.Name ++ "." ++ m⟩],
    none), w ++ [m ++ ".Pack"])

/-- An `Unpack` whose answer depends on the world, in the same way. -/
def cachingUnpack (m : String) (_ : Context) (entity : Package) (_ : List UnpackOption)
    (w : List String) : (List Component × Option GoError) × List String :=
  ((if m = "cache" then w.map (fun n => (⟨n⟩ : Component)) else [⟨entity.Name ++ "/" ++ m⟩],
    none), w ++ [m ++ ".Unpack"])

/-- A `Catalog` whose answer depends on the world, in the same way. -/
def cachingCatalog (m : String) (_ : Context) (_ : CatalogQuery)
    (w : List String) : (List Package × Option GoError) × List String :=
  ((if m = "cache" then w.map (fun n => (⟨n⟩ : Package)) else [⟨m⟩], none),
    w ++ [m ++ ".Catalog"])

/-- The sample backends with the world-dependent list operations; no call of
these three operations fails. -/
def caching : PackageManager String (List String) :=
  { Update := sampleUpdate, Pack := cachingPack, Unpack := cachingUnpack,
    Catalog := cachingCatalog, AddSource := sampleAddSource,
    RemoveSource := sampleRemoveSource, IsCompatible := sampleIsCompatible,
    From := sampleFrom, Format := fun m => m }

/-- A context. -/
def ctx0 : Context := ⟨0⟩

/-- A fresh run: empty world, empty trace. -/
def run0 : Run (List String) := ⟨[], []⟩

end packmanager

/-! ## Build targets (`unikraft/target/target.go`) -/

namespace target

open packmanager (GoError)

/-- Modelled from the spec: `arch.ArchitectureConfig` is declared outside the
given sources; a value object with a pure `Name()` accessor. -/
structure ArchitectureConfig where
  name : String
  deriving DecidableEq, Repr

/-- Accessor `Name()` of the architecture. -/
def ArchitectureConfig.Name (a : ArchitectureConfig) : String := a.name

/-- Modelled from the spec: `plat.PlatformConfig` is declared outside the given
sources; a value object with a pure `Name()` accessor. -/
structure PlatformConfig where
  name : String
  deriving DecidableEq, Repr

/-- Accessor `Name()` of the platform. -/
def PlatformConfig.Name (p : PlatformConfig) : String := p.name

/-- The struct `TargetConfig`; the fields `kconfig` and `initrd`, of types
declared outside the given sources and read by none of the functions below,
are left out. -/
structure TargetConfig where
  name : String
  architecture : ArchitectureConfig
  platform : PlatformConfig
  format : String
  kernel : String
  kernelDbg : String
  command : List String
  deriving DecidableEq, Repr

/-- Method `TargetConfig.Name`. -/
def TargetConfig.Name (tc : TargetConfig) : String := tc.name

/-- Method `TargetConfig.ArchPlatString`. -/
def TargetConfig.ArchPlatString (tc : TargetConfig) : String :=
  tc.platform.Name ++ "-" ++ tc.architecture.Name

/-- Function `KernelName`; the format `"%s_%s-%s"` of three strings is their
concatenation with the two separators. -/
def KernelName (target : TargetConfig) : String × Option GoError :=
  if target.Name = "" then
    ("", some ⟨"target name not set, cannot determine binary name"⟩)
  else
    (target.Name ++ "_" ++ target.platform.Name ++ "-" ++ target.architecture.Name, none)

/-- Function `KernelDbgName`. -/
def KernelDbgName (target : TargetConfig) : String × Option GoError :=
  match (KernelName target).2 with
  | some err => ("", some err)
  | none => ((KernelName target).1 ++ ".dbg", none)

/-- A sample target. -/
def sampleTarget : TargetConfig :=
  { name := "helloworld", architecture := ⟨"x86_64"⟩, platform := ⟨"kvm"⟩, format := "oci",
    kernel := "", kernelDbg := "", command := [] }

end target

/-! ## Project names (`unikraft/app/normalize.go`)

A Go string is taken as the sequence of runes it decodes to. -/

namespace app

/-- The function `unicode.ToLower`: on ASCII it shifts the capitals `A`-`Z` and
leaves every other rune alone; beyond ASCII it follows the Unicode case table,
which is the parameter `table`. -/
def unicodeToLower (table : Char → Char) (r : Char) : Char :=
  if r.toNat ≤ 127 then r.toLower else table r

/-- The function `strings.ToLower`: `unicode.ToLower` on every rune. -/
def ToLower (table : Char → Char) (s : String) : String :=
  ⟨s.data.map (unicodeToLower table)⟩

/-- The character class of the pattern `[a-z0-9_-]`. -/
def inClass (c : Char) : Bool :=
  decide (('a'.toNat ≤ c.toNat ∧ c.toNat ≤ 'z'.toNat) ∨
    ('0'.toNat ≤ c.toNat ∧ c.toNat ≤ '9'.toNat) ∨ c = '_' ∨ c = '-')

/-- The call `r.FindAllString(s, -1)` for the pattern `[a-z0-9_-]`: the
successive matches, each one character long. -/
def FindAllString (s : String) : List String :=
  (s.data.filter inClass).map (fun c => ⟨[c]⟩)

/-- The function `strings.Join`. -/
def Join : List String → String → String
  | [], _ => ""
  | [a], _ => a
  | a :: b :: rest, sep => a ++ sep ++ Join (b :: rest) sep

/-- The function `strings.TrimLeft`: drops the leading runes that occur in
`cutset`. -/
def TrimLeft (s cutset : String) : String :=
  ⟨s.data.dropWhile (fun c => cutset.data.contains c)⟩

/-- Function `normalizeProjectName`. -/
def normalizeProjectName (table : Char → Char) (s : String) : String :=
  TrimLeft (Join (FindAllString (ToLower table s)) "") "_-"

end app

namespace packmanager


/-! ## The registry -/

section RegistryLemmas

variable {ι σ : Type}

theorem Registry.lookup_assign_self (reg : Registry ι) (k : ContextKey) (v : ι) :
    (reg.assign k v).lookup k = some v := by
  induction reg with
  | nil => simp [Registry.assign, Registry.lookup]
  | cons e rest ih =>
    obtain ⟨k', v'⟩ := e
    by_cases h : k' = k
    · simp [Registry.assign, Registry.lookup, h]
    · simp [Registry.assign, Registry.lookup, h, ih]

theorem Registry.lookup_assign_ne (reg : Registry ι) (k k' : ContextKey) (v : ι)
    (h : k' ≠ k) : (reg.assign k v).lookup k' = reg.lookup k' := by
  induction reg with
  | nil => simp [Registry.assign, Registry.lookup, Ne.symm h]
  | cons e rest ih =>
    obtain ⟨k₁, v₁⟩ := e
    by_cases h₁ : k₁ = k
    · subst h₁
      simp [Registry.assign, Registry.lookup, Ne.symm h]
    · by_cases h₂ : k₁ = k'
      · subst h₂
        simp [Registry.assign, Registry.lookup, h₁]
      · simp [Registry.assign, Registry.lookup, h₁, h₂, ih]

theorem RegisterPackageManager_of_present (impl : PackageManager ι σ) (reg : Registry ι)
    (k : ContextKey) (m old : ι) (h : reg.lookup k = some old) :
    RegisterPackageManager impl k m reg =
      (some (Errorf "package manager already registered: " (impl.Format m)), reg) := by
  simp [RegisterPackageManager, h]

theorem RegisterPackageManager_of_absent (impl : PackageManager ι σ) (reg : Registry ι)
    (k : ContextKey) (m : ι) (h : reg.lookup k = none) :
    RegisterPackageManager impl k m reg = (none, reg.assign k m) := by
  simp [RegisterPackageManager, h]

/-- What a lookup finds after a registration attempt: the binding there was,
or else the new one under the registered key. -/
theorem lookup_after_register (impl : PackageManager ι σ) (reg : Registry ι)
    (k k' : ContextKey) (m : ι) :
    (RegisterPackageManager impl k m reg).2.lookup k' =
      match reg.lookup k' with
      | some v => some v
      | none => if k = k' then some m else none := by
  cases hk : reg.lookup k with
  | some old =>
    rw [RegisterPackageManager_of_present impl reg k m old hk]
    cases hk' : reg.lookup k' with
    | some v => rfl
    | none =>
      have : k ≠ k' := by
        intro e; subst e; rw [hk] at hk'; exact Option.noConfusion hk'
      simp [hk', this]
  | none =>
    rw [RegisterPackageManager_of_absent impl reg k m hk]
    by_cases e : k' = k
    · subst e
      simp [Registry.lookup_assign_self, hk]
    · rw [Registry.lookup_assign_ne reg k k' m e]
      cases hk' : reg.lookup k' with
      | some v => rfl
      | none => simp [Ne.symm e]

/-- The errors of a sequence of registrations started on `reg`: the call at
position `i` fails exactly when its key is bound in `reg` or was used by an
earlier call. -/
theorem registerAll_errors (impl : PackageManager ι σ) (calls : List (ContextKey × ι)) :
    ∀ (reg : Registry ι) (i : Nat) (c : ContextKey × ι), calls[i]? = some c →
      ((reg.lookup c.1 ≠ none ∨ ∃ j c', j < i ∧ calls[j]? = some c' ∧ c'.1 = c.1) →
        (registerAll impl calls reg).1[i]? =
          some (some ⟨"package manager already registered: " ++ impl.Format c.2⟩)) ∧
      (¬ (reg.lookup c.1 ≠ none ∨ ∃ j c', j < i ∧ calls[j]? = some c' ∧ c'.1 = c.1) →
        (registerAll impl calls reg).1[i]? = some none) := by
  induction calls with
  | nil => intro reg i c h; simp at h
  | cons e rest ih =>
    obtain ⟨k, m⟩ := e
    intro reg i c h
    cases i with
    | zero =>
      simp at h
      subst h
      cases hk : reg.lookup k with
      | some old =>
        simp [registerAll, RegisterPackageManager_of_present impl reg k m old hk, Errorf]
      | none =>
        simp [registerAll, RegisterPackageManager_of_absent impl reg k m hk]
    | succ i =>
      simp at h
      have key : (reg.lookup c.1 ≠ none ∨
            ∃ j c', j < i + 1 ∧ ((k, m) :: rest)[j]? = some c' ∧ c'.1 = c.1) ↔
          ((RegisterPackageManager impl k m reg).2.lookup c.1 ≠ none ∨
            ∃ j c', j < i ∧ rest[j]? = some c' ∧ c'.1 = c.1) := by
        rw [lookup_after_register]
        constructor
        · rintro (h₁ | ⟨j, c', hj, hc', hk⟩)
          · left
            cases hl : reg.lookup c.1 with
            | some v => simp
            | none => exact absurd hl h₁
          · cases j with
            | zero =>
              simp at hc'
              subst hc'
              left
              cases hl : reg.lookup c.1 with
              | some v => simp
              | none => simpa using hk
            | succ j =>
              right
              exact ⟨j, c', by omega, by simpa using hc', hk⟩
        · rintro (h₁ | ⟨j, c', hj, hc', hk⟩)
          · cases hl : reg.lookup c.1 with
            | some v => left; simp
            | none =>
              rw [hl] at h₁
              by_cases e : k = c.1
              · right
                exact ⟨0, (k, m), by omega, by simp, e⟩
              · simp [e] at h₁
          · right
            exact ⟨j + 1, c', by omega, by simpa using hc', hk⟩
      have ih' := ih (RegisterPackageManager impl k m reg).2 i c h
      simp only [registerAll, List.getElem?_cons_succ]
      exact ⟨fun hp => ih'.1 (key.1 hp), fun hn => ih'.2 (fun hp => hn (key.2 hp))⟩

/-- The registry left by a sequence of registrations started on `reg`. -/
theorem registerAll_lookup (impl : PackageManager ι σ) (calls : List (ContextKey × ι)) :
    ∀ (reg : Registry ι) (k : ContextKey),
      (registerAll impl calls reg).2.lookup k =
        match reg.lookup k with
        | some v => some v
        | none => (calls.find? (fun c => c.1 = k)).map Prod.snd := by
  induction calls with
  | nil => intro reg k; cases h : reg.lookup k <;> simp [registerAll, h]
  | cons e rest ih =>
    obtain ⟨k₁, m⟩ := e
    intro reg k
    simp only [registerAll]
    rw [ih, lookup_after_register]
    cases reg.lookup k with
    | some v => rfl
    | none =>
      by_cases e : k₁ = k
      · simp [e]
      · simp [e, List.find?_cons]

theorem registerAll_length (impl : PackageManager ι σ) (calls : List (ContextKey × ι)) :
    ∀ reg : Registry ι, (registerAll impl calls reg).1.length = calls.length := by
  induction calls with
  | nil => intro reg; rfl
  | cons e rest ih =>
    obtain ⟨k, m⟩ := e
    intro reg
    simp [registerAll, ih]

end RegistryLemmas

/-- C1: registering under a key that is already present returns the "already
registered" error naming the `Format()` of the backend passed in, and the
registry after the call is the registry before it; a lookup of the key still
finds the backend registered originally. -/
theorem RegisterPackageManager_already_registered {ι σ : Type} (impl : PackageManager ι σ)
    (reg : Registry ι) (k : ContextKey) (m old : ι) (h : reg.lookup k = some old) :
    (RegisterPackageManager impl k m reg).1 =
        some ⟨"package manager already registered: " ++ impl.Format m⟩ ∧
      (RegisterPackageManager impl k m reg).2 = reg ∧
      (PackageManagers (RegisterPackageManager impl k m reg).2).lookup k = some old := by
  rw [RegisterPackageManager_of_present impl reg k m old h]
  exact ⟨rfl, rfl, h⟩

/-- An instance of the duplicate-key case on the sample backends. -/
theorem RegisterPackageManager_already_registered_witness :
    Registry.lookup [("oci", "oci")] "oci" = some "oci" ∧
      (RegisterPackageManager sample "oci" "tar" [("oci", "oci")]).1 =
        some ⟨"package manager already registered: tar"⟩ ∧
      (RegisterPackageManager sample "oci" "tar" [("oci", "oci")]).2 = [("oci", "oci")] ∧
      (PackageManagers (RegisterPackageManager sample "oci" "tar" [("oci", "oci")]).2).lookup
        "oci" = some "oci" :=
  ⟨by decide, RegisterPackageManager_already_registered sample [("oci", "oci")] "oci" "tar" "oci"
    (by decide)⟩

/-- C2: registering under a key that is not present returns no error; afterwards
`PackageManagers()` binds the key to exactly the backend passed in, and every
other key is bound as before the call. -/
theorem RegisterPackageManager_inserts {ι σ : Type} (impl : PackageManager ι σ)
    (reg : Registry ι) (k : ContextKey) (m : ι) (h : reg.lookup k = none) :
    (RegisterPackageManager impl k m reg).1 = none ∧
      (PackageManagers (RegisterPackageManager impl k m reg).2).lookup k = some m ∧
      ∀ k', k' ≠ k →
        (PackageManagers (RegisterPackageManager impl k m reg).2).lookup k' = reg.lookup k' := by
  rw [RegisterPackageManager_of_absent impl reg k m h]
  exact ⟨rfl, Registry.lookup_assign_self reg k m,
    fun k' hk' => Registry.lookup_assign_ne reg k k' m hk'⟩

/-- An instance of the fresh-key case on the sample backends. -/
theorem RegisterPackageManager_inserts_witness :
    Registry.lookup [("oci", "oci")] "tar" = none ∧
      (RegisterPackageManager sample "tar" "tar" [("oci", "oci")]).1 = none ∧
      (PackageManagers (RegisterPackageManager sample "tar" "tar" [("oci", "oci")]).2).lookup
        "tar" = some "tar" ∧
      ∀ k', k' ≠ "tar" →
        (PackageManagers (RegisterPackageManager sample "tar" "tar" [("oci", "oci")]).2).lookup
          k' = Registry.lookup [("oci", "oci")] k' :=
  ⟨by decide, RegisterPackageManager_inserts sample [("oci", "oci")] "tar" "tar" (by decide)⟩

/-- C3: in a sequence of `RegisterPackageManager` calls started on the empty
registry, the call at position `i` returns an error (the "already registered"
one) exactly when its key was used by an earlier call of the sequence, and
returns no error otherwise; the final registry binds every key to the backend
passed by the first call made with that key. -/
theorem registerAll_first_registration_wins {ι σ : Type} (impl : PackageManager ι σ)
    (calls : List (ContextKey × ι)) :
    (registerAll impl calls (packageManagersInit ι)).1.length = calls.length ∧
      (∀ (i : Nat) (c : ContextKey × ι), calls[i]? = some c →
        ((∃ j c', j < i ∧ calls[j]? = some c' ∧ c'.1 = c.1) →
          (registerAll impl calls (packageManagersInit ι)).1[i]? =
            some (some ⟨"package manager already registered: " ++ impl.Format c.2⟩)) ∧
        ((¬ ∃ j c', j < i ∧ calls[j]? = some c' ∧ c'.1 = c.1) →
          (registerAll impl calls (packageManagersInit ι)).1[i]? = some none)) ∧
      ∀ k : ContextKey,
        (PackageManagers (registerAll impl calls (packageManagersInit ι)).2).lookup k =
          (calls.find? (fun c => c.1 = k)).map Prod.snd := by
  refine ⟨registerAll_length impl calls _, ?_, ?_⟩
  · intro i c hc
    have h := registerAll_errors impl calls (packageManagersInit ι) i c hc
    simp only [packageManagersInit, Registry.lookup, ne_eq, not_true_eq_false, false_or] at h
    exact h
  · intro k
    have h := registerAll_lookup impl calls (packageManagersInit ι) k
    simpa [packageManagersInit, Registry.lookup, PackageManagers] using h


/-! ## The fail-fast loops -/

section Loops

variable {ι σ α β : Type}

theorem returns_append (op : ι → σ → α × σ) (front back : Registry ι) :
    ∀ w : σ, returns op (front ++ back) w =
      returns op front w ++ returns op back (worldAfter op front w) := by
  induction front with
  | nil => intro w; rfl
  | cons e rest ih => intro w; simp [returns, worldAfter, ih]

theorem worldAfter_append (op : ι → σ → α × σ) (front back : Registry ι) :
    ∀ w : σ, worldAfter op (front ++ back) w = worldAfter op back (worldAfter op front w) := by
  induction front with
  | nil => intro w; rfl
  | cons e rest ih => intro w; simp [worldAfter, ih]

theorem returns_length (op : ι → σ → α × σ) (entries : Registry ι) :
    ∀ w : σ, (returns op entries w).length = entries.length := by
  induction entries with
  | nil => intro w; rfl
  | cons e rest ih => intro w; simp [returns, ih]

theorem returns_errOf (op : ι → σ → (List β × Option GoError) × σ) (entries : Registry ι) :
    ∀ w : σ, returns (errOf op) entries w = (returns op entries w).map Prod.snd := by
  induction entries with
  | nil => intro w; rfl
  | cons e rest ih => intro w; simp [returns, errOf, ih]

theorem worldAfter_errOf (op : ι → σ → (List β × Option GoError) × σ) (entries : Registry ι) :
    ∀ w : σ, worldAfter (errOf op) entries w = worldAfter op entries w := by
  induction entries with
  | nil => intro w; rfl
  | cons e rest ih => intro w; simp [worldAfter, errOf, ih]

/-- Either every value returned by the sequence of calls satisfies `P`, or there
is a first call whose value does not. -/
theorem returns_first (op : ι → σ → α × σ) (P : α → Prop) (entries : Registry ι) :
    ∀ w : σ, (∀ r ∈ returns op entries w, P r) ∨
      ∃ front b back, entries = front ++ b :: back ∧
        (∀ r ∈ returns op front w, P r) ∧ ¬ P (op b.2 (worldAfter op front w)).1 := by
  induction entries with
  | nil => intro w; left; simp [returns]
  | cons e rest ih =>
    intro w
    by_cases h : P (op e.2 w).1
    · rcases ih (op e.2 w).2 with hall | ⟨front, b, back, he, hfront, hb⟩
      · left
        intro r hr
        simp only [returns, List.mem_cons] at hr
        rcases hr with hr | hr
        · rw [hr]; exact h
        · exact hall r hr
      · right
        refine ⟨e :: front, b, back, by simp [he], ?_, by simpa [worldAfter] using hb⟩
        intro r hr
        simp only [returns, List.mem_cons] at hr
        rcases hr with hr | hr
        · rw [hr]; exact h
        · exact hfront r hr
    · exact Or.inr ⟨[], e, rest, rfl, by simp [returns], by simpa [worldAfter] using h⟩

/-- Either every call of the sequence succeeds, or there is a first one that
fails. -/
theorem returns_cases (op : ι → σ → Option GoError × σ) (entries : Registry ι) (w : σ) :
    (∀ r ∈ returns op entries w, r = none) ∨
      ∃ front b back err, entries = front ++ b :: back ∧
        (∀ r ∈ returns op front w, r = none) ∧
        (op b.2 (worldAfter op front w)).1 = some err := by
  rcases returns_first op (fun r => r = none) entries w with h | ⟨front, b, back, he, hf, hb⟩
  · exact Or.inl h
  · obtain ⟨err, herr⟩ := Option.ne_none_iff_exists'.mp hb
    exact Or.inr ⟨front, b, back, err, he, hf, herr⟩

/-- Every value returned by the sequence of calls is returned by one of its
backends, in some world. -/
theorem exists_of_mem_returns (op : ι → σ → α × σ) (entries : Registry ι) :
    ∀ (w : σ) (r : α), r ∈ returns op entries w → ∃ e ∈ entries, ∃ w', r = (op e.2 w').1 := by
  induction entries with
  | nil => intro w r h; simp [returns] at h
  | cons e rest ih =>
    intro w r h
    simp only [returns, List.mem_cons] at h
    rcases h with h | h
    · exact ⟨e, by simp, w, h⟩
    · obtain ⟨e', he', w', hw'⟩ := ih _ r h
      exact ⟨e', by simp [he'], w', hw'⟩

/-- Every backend of the sequence contributes a returned value. -/
theorem mem_returns_of_mem (op : ι → σ → α × σ) (entries : Registry ι) :
    ∀ (w : σ) (e : ContextKey × ι), e ∈ entries → ∃ w', (op e.2 w').1 ∈ returns op entries w := by
  induction entries with
  | nil => intro w e h; simp at h
  | cons e₀ rest ih =>
    intro w e h
    simp only [List.mem_cons] at h
    rcases h with h | h
    · subst h
      exact ⟨w, by simp [returns]⟩
    · obtain ⟨w', hw'⟩ := ih (op e₀.2 w).2 e h
      exact ⟨w', by simp [returns, hw']⟩

theorem errLoop_all_ok (op : ι → σ → Option GoError × σ) (pre : ContextKey × ι → List Event)
    (call : Call) (entries : Registry ι) :
    ∀ x : Run σ, (∀ r ∈ returns op entries x.world, r = none) →
      errLoop op pre call entries x =
        (none, ⟨worldAfter op entries x.world,
          x.trace ++ entries.flatMap (stepEvents pre call)⟩) := by
  induction entries with
  | nil => intro x _; simp [errLoop, worldAfter]
  | cons e rest ih =>
    intro x h
    have h0 : (op e.2 x.world).1 = none := h _ (by simp [returns])
    have hrest : ∀ r ∈ returns op rest (op e.2 x.world).2, r = none :=
      fun r hr => h r (by simp [returns, hr])
    simp only [errLoop, h0]
    rw [ih ⟨(op e.2 x.world).2, x.trace ++ stepEvents pre call e⟩ hrest]
    simp [worldAfter, List.flatMap_cons]

theorem errLoop_first_error (op : ι → σ → Option GoError × σ)
    (pre : ContextKey × ι → List Event) (call : Call) (front : Registry ι)
    (b : ContextKey × ι) (back : Registry ι) (err : GoError) :
    ∀ x : Run σ, (∀ r ∈ returns op front x.world, r = none) →
      (op b.2 (worldAfter op front x.world)).1 = some err →
      errLoop op pre call (front ++ b :: back) x =
        (some err, ⟨(op b.2 (worldAfter op front x.world)).2,
          x.trace ++ (front ++ [b]).flatMap (stepEvents pre call)⟩) := by
  induction front with
  | nil =>
    intro x _ hb
    simp only [worldAfter] at hb
    simp [errLoop, hb, worldAfter, List.flatMap_cons]
  | cons e rest ih =>
    intro x h hb
    have h0 : (op e.2 x.world).1 = none := h _ (by simp [returns])
    have hrest : ∀ r ∈ returns op rest (op e.2 x.world).2, r = none :=
      fun r hr => h r (by simp [returns, hr])
    simp only [List.cons_append, errLoop, h0, List.append_eq]
    rw [ih ⟨(op e.2 x.world).2, x.trace ++ stepEvents pre call e⟩ hrest
      (by simpa [worldAfter] using hb)]
    simp [worldAfter, List.flatMap_cons]

/-- The loop succeeds exactly when every call of the sequence succeeds. -/
theorem errLoop_none_iff (op : ι → σ → Option GoError × σ) (pre : ContextKey × ι → List Event)
    (call : Call) (entries : Registry ι) (x : Run σ) :
    (errLoop op pre call entries x).1 = none ↔ ∀ r ∈ returns op entries x.world, r = none := by
  constructor
  · intro h
    rcases returns_cases op entries x.world with hall | ⟨front, b, back, err, he, hfront, hb⟩
    · exact hall
    · rw [he, errLoop_first_error op pre call front b back err x hfront hb] at h
      exact absurd h (by simp)
  · intro h
    rw [errLoop_all_ok op pre call entries x h]

theorem listLoop_err (op : ι → σ → (List β × Option GoError) × σ)
    (pre : ContextKey × ι → List Event) (call : Call) (entries : Registry ι) :
    ∀ (ret : List β) (x : Run σ),
      ((listLoop op pre call entries ret x).1.2, (listLoop op pre call entries ret x).2) =
        errLoop (errOf op) pre call entries x := by
  induction entries with
  | nil => intro ret x; rfl
  | cons e rest ih =>
    intro ret x
    cases h : (op e.2 x.world).1.2 with
    | some err => simp [listLoop, errLoop, errOf, h]
    | none => simp [listLoop, errLoop, errOf, h, ih]

theorem listLoop_data (op : ι → σ → (List β × Option GoError) × σ)
    (pre : ContextKey × ι → List Event) (call : Call) (entries : Registry ι) :
    ∀ (ret : List β) (x : Run σ),
      (listLoop op pre call entries ret x).1.1 =
        match (listLoop op pre call entries ret x).1.2 with
        | none => ret ++ ((returns op entries x.world).map Prod.fst).flatten
        | some _ => [] := by
  induction entries with
  | nil => intro ret x; simp [listLoop, returns]
  | cons e rest ih =>
    intro ret x
    cases h : (op e.2 x.world).1.2 with
    | some err => simp [listLoop, h]
    | none =>
      simp only [listLoop, h]
      rw [ih]
      cases (listLoop op pre call rest (ret ++ (op e.2 x.world).1.1)
        ⟨(op e.2 x.world).2, x.trace ++ stepEvents pre call e⟩).1.2 with
      | none => simp [returns]
      | some _ => rfl

theorem invocations_append (a b : List Event) :
    invocations (a ++ b) = invocations a ++ invocations b := by
  induction a with
  | nil => rfl
  | cons e rest ih => cases e <;> simp [invocations, ih]

theorem invocations_flatMap_stepEvents (pre : ContextKey × ι → List Event) (call : Call)
    (hpre : ∀ e, invocations (pre e) = []) (entries : Registry ι) :
    invocations (entries.flatMap (stepEvents pre call)) = entries.map (fun e => (e.1, call)) := by
  induction entries with
  | nil => rfl
  | cons e rest ih =>
    simp [List.flatMap_cons, invocations_append, stepEvents, hpre, invocations, ih]

/-- When the outcome of each backend is fixed, every call of an iteration
succeeds exactly when every registered backend succeeds. -/
theorem returns_none_iff_of_fixed (op : ι → σ → Option GoError × σ) (reg entries : Registry ι)
    (hfix : OutcomeFixed op reg) (hrange : IsRange reg entries) (w : σ) :
    (∀ r ∈ returns op entries w, r = none) ↔ ∀ e ∈ reg, ∀ w' : σ, (op e.2 w').1 = none := by
  constructor
  · intro h e he w'
    obtain ⟨w₀, hw₀⟩ := mem_returns_of_mem op entries w e ((List.Perm.mem_iff hrange).2 he)
    exact (hfix e he w₀ w').1 (h _ hw₀)
  · intro h r hr
    obtain ⟨e, he, w', hw'⟩ := exists_of_mem_returns op entries w r hr
    rw [hw']
    exact h e ((List.Perm.mem_iff hrange).1 he) w'

theorem listLoop_all_ok (op : ι → σ → (List β × Option GoError) × σ)
    (pre : ContextKey × ι → List Event) (call : Call) (entries : Registry ι) (x : Run σ)
    (h : ∀ r ∈ returns op entries x.world, r.2 = none) :
    listLoop op pre call entries [] x =
      ((((returns op entries x.world).map Prod.fst).flatten, none),
        ⟨worldAfter op entries x.world, x.trace ++ entries.flatMap (stepEvents pre call)⟩) := by
  have herr := listLoop_err op pre call entries [] x
  have hok : ∀ r ∈ returns (errOf op) entries x.world, r = none := by
    intro r hr
    rw [returns_errOf, List.mem_map] at hr
    obtain ⟨r', hr', rfl⟩ := hr
    exact h r' hr'
  rw [errLoop_all_ok (errOf op) pre call entries x hok, worldAfter_errOf] at herr
  have hdata := listLoop_data op pre call entries [] x
  have h2 : (listLoop op pre call entries [] x).1.2 = none := congrArg Prod.fst herr
  have h3 := congrArg Prod.snd herr
  rw [h2] at hdata
  simp only [List.nil_append] at hdata h3
  rw [← h3]
  ext1
  · ext1
    · exact hdata
    · exact h2
  · rfl

theorem listLoop_first_error (op : ι → σ → (List β × Option GoError) × σ)
    (pre : ContextKey × ι → List Event) (call : Call) (front : Registry ι)
    (b : ContextKey × ι) (back : Registry ι) (err : GoError) (x : Run σ)
    (h : ∀ r ∈ returns op front x.world, r.2 = none)
    (hb : (op b.2 (worldAfter op front x.world)).1.2 = some err) :
    listLoop op pre call (front ++ b :: back) [] x =
      (([], some err), ⟨(op b.2 (worldAfter op front x.world)).2,
        x.trace ++ (front ++ [b]).flatMap (stepEvents pre call)⟩) := by
  have herr := listLoop_err op pre call (front ++ b :: back) [] x
  have hok : ∀ r ∈ returns (errOf op) front x.world, r = none := by
    intro r hr
    rw [returns_errOf, List.mem_map] at hr
    obtain ⟨r', hr', rfl⟩ := hr
    exact h r' hr'
  have hb' : (errOf op b.2 (worldAfter (errOf op) front x.world)).1 = some err := by
    rw [worldAfter_errOf]; exact hb
  rw [errLoop_first_error (errOf op) pre call front b back err x hok hb', worldAfter_errOf]
    at herr
  have hdata := listLoop_data op pre call (front ++ b :: back) [] x
  have h2 : (listLoop op pre call (front ++ b :: back) [] x).1.2 = some err :=
    congrArg Prod.fst herr
  have h3 := congrArg Prod.snd herr
  rw [h2] at hdata
  simp only [errOf] at h3
  rw [← h3]
  ext1
  · ext1
    · exact hdata
    · exact h2
  · rfl

/-- The error-only loop, when the backend `b` is the first to fail. -/
theorem errLoop_first_error_summary (op : ι → σ → Option GoError × σ)
    (pre : ContextKey × ι → List Event) (hpre : ∀ e, invocations (pre e) = []) (call : Call)
    (front : Registry ι) (b : ContextKey × ι) (back : Registry ι) (err : GoError) (x : Run σ)
    (h : ∀ r ∈ returns op front x.world, r = none)
    (hb : (op b.2 (worldAfter op front x.world)).1 = some err) :
    (errLoop op pre call (front ++ b :: back) x).1 = some err ∧
      invocations (errLoop op pre call (front ++ b :: back) x).2.trace =
        invocations x.trace ++ (front ++ [b]).map (fun e => (e.1, call)) ∧
      (errLoop op pre call (front ++ b :: back) x).2.world =
        worldAfter op (front ++ [b]) x.world := by
  rw [errLoop_first_error op pre call front b back err x h hb]
  refine ⟨rfl, ?_, ?_⟩
  · rw [invocations_append, invocations_flatMap_stepEvents pre call hpre]
  · simp [worldAfter_append, worldAfter]

/-- The error-only loop, when no backend fails. -/
theorem errLoop_all_ok_summary (op : ι → σ → Option GoError × σ)
    (pre : ContextKey × ι → List Event) (hpre : ∀ e, invocations (pre e) = []) (call : Call)
    (entries : Registry ι) (x : Run σ)
    (h : ∀ r ∈ returns op entries x.world, r = none) :
    (errLoop op pre call entries x).1 = none ∧
      invocations (errLoop op pre call entries x).2.trace =
        invocations x.trace ++ entries.map (fun e => (e.1, call)) ∧
      (errLoop op pre call entries x).2.world = worldAfter op entries x.world := by
  rw [errLoop_all_ok op pre call entries x h]
  refine ⟨rfl, ?_, rfl⟩
  rw [invocations_append, invocations_flatMap_stepEvents pre call hpre]

/-- With fixed outcomes, the error-only loop succeeds on an iteration of the
registry exactly when every registered backend succeeds. -/
theorem errLoop_none_iff_of_fixed (op : ι → σ → Option GoError × σ)
    (pre : ContextKey × ι → List Event) (call : Call) (reg entries : Registry ι)
    (hrange : IsRange reg entries) (x : Run σ) (hfix : OutcomeFixed op reg) :
    (errLoop op pre call entries x).1 = none ↔ ∀ e ∈ reg, ∀ w : σ, (op e.2 w).1 = none := by
  rw [errLoop_none_iff, returns_none_iff_of_fixed op reg entries hfix hrange]

/-- With fixed outcomes, the list loop succeeds on an iteration of the registry
exactly when every registered backend succeeds. -/
theorem listLoop_none_iff_of_fixed (op : ι → σ → (List β × Option GoError) × σ)
    (pre : ContextKey × ι → List Event) (call : Call) (reg entries : Registry ι)
    (hrange : IsRange reg entries) (ret : List β) (x : Run σ)
    (hfix : OutcomeFixed (errOf op) reg) :
    (listLoop op pre call entries ret x).1.2 = none ↔
      ∀ e ∈ reg, ∀ w : σ, (op e.2 w).1.2 = none := by
  have herr := congrArg Prod.fst (listLoop_err op pre call entries ret x)
  simp only at herr
  rw [herr, errLoop_none_iff_of_fixed (errOf op) pre call reg entries hrange x hfix]
  rfl

/-- The list loop succeeds exactly when every call of the sequence succeeds. -/
theorem listLoop_none_iff (op : ι → σ → (List β × Option GoError) × σ)
    (pre : ContextKey × ι → List Event) (call : Call) (entries : Registry ι) (ret : List β)
    (x : Run σ) :
    (listLoop op pre call entries ret x).1.2 = none ↔
      ∀ r ∈ returns op entries x.world, r.2 = none := by
  have herr := congrArg Prod.fst (listLoop_err op pre call entries ret x)
  simp only at herr
  rw [herr, errLoop_none_iff, returns_errOf]
  constructor
  · intro h r hr
    exact h r.2 (List.mem_map.2 ⟨r, hr, rfl⟩)
  · intro h r hr
    obtain ⟨r', hr', rfl⟩ := List.mem_map.1 hr
    exact h r' hr'

/-- The list loop never returns data next to an error. -/
theorem listLoop_no_data_with_error (op : ι → σ → (List β × Option GoError) × σ)
    (pre : ContextKey × ι → List Event) (call : Call) (entries : Registry ι) (ret : List β)
    (x : Run σ) (err : GoError) (h : (listLoop op pre call entries ret x).1.2 = some err) :
    (listLoop op pre call entries ret x).1.1 = [] := by
  have hdata := listLoop_data op pre call entries ret x
  rw [h] at hdata
  exact hdata

end Loops

/-! ## The umbrella's loops are instances of the two shapes -/

section Bridge

variable {ι σ : Type} (impl : PackageManager ι σ)

theorem Update_eq_errLoop (ctx : Context) (entries : Registry ι) :
    ∀ x : Run σ, umbrella.Update impl ctx entries x =
      errLoop (fun m => impl.Update m ctx) (fun _ => []) (Call.Update ctx) entries x := by
  induction entries with
  | nil => intro x; rfl
  | cons e rest ih =>
    obtain ⟨k, m⟩ := e
    intro x
    cases h : (impl.Update m ctx x.world).1 <;>
      simp [umbrella.Update, errLoop, Run.invoke, stepEvents, h, ih]

theorem AddSource_eq_errLoop (ctx : Context) (source : String) (entries : Registry ι) :
    ∀ x : Run σ, umbrella.AddSource impl ctx source entries x =
      errLoop (fun m => impl.AddSource m ctx source)
        (fun e => [Event.Tracef ctx
          ("Adding source " ++ source ++ " via " ++ impl.Format e.2 ++ "...")])
        (Call.AddSource ctx source) entries x := by
  induction entries with
  | nil => intro x; rfl
  | cons e rest ih =>
    obtain ⟨k, m⟩ := e
    intro x
    cases h : (impl.AddSource m ctx source x.world).1 <;>
      simp [umbrella.AddSource, errLoop, Run.invoke, Run.emit, stepEvents, h, ih]

theorem RemoveSource_eq_errLoop (ctx : Context) (source : String) (entries : Registry ι) :
    ∀ x : Run σ, umbrella.RemoveSource impl ctx source entries x =
      errLoop (fun m => impl.RemoveSource m ctx source)
        (fun e => [Event.Tracef ctx
          ("Removing source " ++ source ++ " via " ++ impl.Format e.2 ++ "...")])
        (Call.RemoveSource ctx source) entries x := by
  induction entries with
  | nil => intro x; rfl
  | cons e rest ih =>
    obtain ⟨k, m⟩ := e
    intro x
    cases h : (impl.RemoveSource m ctx source x.world).1 <;>
      simp [umbrella.RemoveSource, errLoop, Run.invoke, Run.emit, stepEvents, h, ih]

theorem PackLoop_eq_listLoop (ctx : Context) (entity : Component) (opts : List PackOption)
    (entries : Registry ι) :
    ∀ (ret : List Package) (x : Run σ), umbrella.PackLoop impl ctx entity opts entries ret x =
      listLoop (fun m => impl.Pack m ctx entity opts)
        (fun e => [Event.Tracef ctx
          ("Packing " ++ entity.Name ++ " via " ++ impl.Format e.2 ++ "...")])
        (Call.Pack ctx entity opts) entries ret x := by
  induction entries with
  | nil => intro ret x; rfl
  | cons e rest ih =>
    obtain ⟨k, m⟩ := e
    intro ret x
    cases h : (impl.Pack m ctx entity opts x.world).1.2 <;>
      simp [umbrella.PackLoop, listLoop, Run.invoke, Run.emit, stepEvents, h, ih]

theorem UnpackLoop_eq_listLoop (ctx : Context) (entity : Package) (opts : List UnpackOption)
    (entries : Registry ι) :
    ∀ (ret : List Component) (x : Run σ),
      umbrella.UnpackLoop impl ctx entity opts entries ret x =
        listLoop (fun m => impl.Unpack m ctx entity opts)
          (fun e => [Event.Tracef ctx
            ("Unpacking " ++ entity.Name ++ " via " ++ impl.Format e.2 ++ "...")])
          (Call.Unpack ctx entity opts) entries ret x := by
  induction entries with
  | nil => intro ret x; rfl
  | cons e rest ih =>
    obtain ⟨k, m⟩ := e
    intro ret x
    cases h : (impl.Unpack m ctx entity opts x.world).1.2 <;>
      simp [umbrella.UnpackLoop, listLoop, Run.invoke, Run.emit, stepEvents, h, ih]

theorem CatalogLoop_eq_listLoop (ctx : Context) (query : CatalogQuery) (entries : Registry ι) :
    ∀ (packages : List Package) (x : Run σ),
      umbrella.CatalogLoop impl ctx query entries packages x =
        listLoop (fun m => impl.Catalog m ctx query) (fun _ => [])
          (Call.Catalog ctx query) entries packages x := by
  induction entries with
  | nil => intro ret x; rfl
  | cons e rest ih =>
    obtain ⟨k, m⟩ := e
    intro ret x
    cases h : (impl.Catalog m ctx query x.world).1.2 <;>
      simp [umbrella.CatalogLoop, listLoop, Run.invoke, stepEvents, h, ih]

end Bridge

/-! ## List-returning fan-out: `Pack`, `Unpack`, `Catalog` -/

/-- C4: for each of `Pack`, `Unpack` and `Catalog`, on any iteration `entries` of
the registry: when every backend's call succeeds (each made with the context,
entity or query, and options the umbrella received, in the world left by the
calls before it), the umbrella returns no error and the concatenation, in
iteration order, of the slices the backends returned, nothing dropped; its
length is the sum of their lengths, and the backends invoked are exactly those
of `entries`, in order, each with those same arguments. -/
theorem umbrella_list_ops_concatenate {ι σ : Type} (impl : PackageManager ι σ) (ctx : Context)
    (entries : Registry ι) (x : Run σ) :
    (∀ (entity : Component) (opts : List PackOption),
      (∀ r ∈ returns (fun m => impl.Pack m ctx entity opts) entries x.world, r.2 = none) →
        (umbrella.Pack impl ctx entity opts entries x).1 =
          (((returns (fun m => impl.Pack m ctx entity opts) entries x.world).map
            Prod.fst).flatten, none) ∧
        (umbrella.Pack impl ctx entity opts entries x).1.1.length =
          ((returns (fun m => impl.Pack m ctx entity opts) entries x.world).map
            (fun r => r.1.length)).sum ∧
        invocations (umbrella.Pack impl ctx entity opts entries x).2.trace =
          invocations x.trace ++ entries.map (fun e => (e.1, Call.Pack ctx entity opts))) ∧
    (∀ (entity : Package) (opts : List UnpackOption),
      (∀ r ∈ returns (fun m => impl.Unpack m ctx entity opts) entries x.world, r.2 = none) →
        (umbrella.Unpack impl ctx entity opts entries x).1 =
          (((returns (fun m => impl.Unpack m ctx entity opts) entries x.world).map
            Prod.fst).flatten, none) ∧
        (umbrella.Unpack impl ctx entity opts entries x).1.1.length =
          ((returns (fun m => impl.Unpack m ctx entity opts) entries x.world).map
            (fun r => r.1.length)).sum ∧
        invocations (umbrella.Unpack impl ctx entity opts entries x).2.trace =
          invocations x.trace ++ entries.map (fun e => (e.1, Call.Unpack ctx entity opts))) ∧
    (∀ query : CatalogQuery,
      (∀ r ∈ returns (fun m => impl.Catalog m ctx query) entries x.world, r.2 = none) →
        (umbrella.Catalog impl ctx query entries x).1 =
          (((returns (fun m => impl.Catalog m ctx query) entries x.world).map
            Prod.fst).flatten, none) ∧
        (umbrella.Catalog impl ctx query entries x).1.1.length =
          ((returns (fun m => impl.Catalog m ctx query) entries x.world).map
            (fun r => r.1.length)).sum ∧
        invocations (umbrella.Catalog impl ctx query entries x).2.trace =
          invocations x.trace ++ entries.map (fun e => (e.1, Call.Catalog ctx query))) := by
  refine ⟨?_, ?_, ?_⟩
  · intro entity opts h
    rw [umbrella.Pack, PackLoop_eq_listLoop, listLoop_all_ok _ _ _ entries x h]
    refine ⟨rfl, ?_, ?_⟩
    · simp [List.length_flatten, Function.comp_def]
    · rw [invocations_append, invocations_flatMap_stepEvents]
      intro e; rfl
  · intro entity opts h
    rw [umbrella.Unpack, UnpackLoop_eq_listLoop, listLoop_all_ok _ _ _ entries x h]
    refine ⟨rfl, ?_, ?_⟩
    · simp [List.length_flatten, Function.comp_def]
    · rw [invocations_append, invocations_flatMap_stepEvents]
      intro e; rfl
  · intro query h
    rw [umbrella.Catalog, CatalogLoop_eq_listLoop, listLoop_all_ok _ _ _ entries x h]
    refine ⟨rfl, ?_, ?_⟩
    · simp [List.length_flatten, Function.comp_def]
    · rw [invocations_append, invocations_flatMap_stepEvents]
      intro e; rfl

/-- The spec's scenario: "oci" and "tar" both pack the component; the umbrella
returns the two packages in iteration order. -/
theorem umbrella_list_ops_concatenate_witness :
    (∀ r ∈ returns (fun m => sample.Pack m ctx0 ⟨"app"⟩ []) [("a", "oci"), ("b", "tar")]
        run0.world, r.2 = none) ∧
      (umbrella.Pack sample ctx0 ⟨"app"⟩ [] [("a", "oci"), ("b", "tar")] run0).1 =
        ([⟨"app.oci"⟩, ⟨"app.tar"⟩], none) ∧
      (umbrella.Pack sample ctx0 ⟨"app"⟩ [] [("a", "oci"), ("b", "tar")] run0).1.1.length =
        1 + (1 + 0) ∧
      invocations (umbrella.Pack sample ctx0 ⟨"app"⟩ [] [("a", "oci"), ("b", "tar")] run0).2.trace
        = [("a", Call.Pack ctx0 ⟨"app"⟩ []), ("b", Call.Pack ctx0 ⟨"app"⟩ [])] :=
  ⟨by decide,
    (umbrella_list_ops_concatenate sample ctx0 [("a", "oci"), ("b", "tar")] run0).1
      ⟨"app"⟩ [] (by decide)⟩

/-- C5: for each of `Pack`, `Unpack` and `Catalog`, on any iteration of the
registry: when the backend `b` is the first whose call fails (the backends
`front` before it all succeed), the umbrella returns exactly the error `b`
returned, together with the nil slice; nothing returned by the backends of
`front`, or by `b` next to its error, is handed back. -/
theorem umbrella_list_ops_first_error {ι σ : Type} (impl : PackageManager ι σ) (ctx : Context)
    (front : Registry ι) (b : ContextKey × ι) (back : Registry ι) (err : GoError)
    (x : Run σ) :
    (∀ (entity : Component) (opts : List PackOption),
      (∀ r ∈ returns (fun m => impl.Pack m ctx entity opts) front x.world, r.2 = none) →
      (impl.Pack b.2 ctx entity opts
        (worldAfter (fun m => impl.Pack m ctx entity opts) front x.world)).1.2 = some err →
        (umbrella.Pack impl ctx entity opts (front ++ b :: back) x).1 = ([], some err)) ∧
    (∀ (entity : Package) (opts : List UnpackOption),
      (∀ r ∈ returns (fun m => impl.Unpack m ctx entity opts) front x.world, r.2 = none) →
      (impl.Unpack b.2 ctx entity opts
        (worldAfter (fun m => impl.Unpack m ctx entity opts) front x.world)).1.2 = some err →
        (umbrella.Unpack impl ctx entity opts (front ++ b :: back) x).1 = ([], some err)) ∧
    (∀ query : CatalogQuery,
      (∀ r ∈ returns (fun m => impl.Catalog m ctx query) front x.world, r.2 = none) →
      (impl.Catalog b.2 ctx query
        (worldAfter (fun m => impl.Catalog m ctx query) front x.world)).1.2 = some err →
        (umbrella.Catalog impl ctx query (front ++ b :: back) x).1 = ([], some err)) := by
  refine ⟨?_, ?_, ?_⟩
  · intro entity opts h hb
    rw [umbrella.Pack, PackLoop_eq_listLoop, listLoop_first_error _ _ _ front b back err x h hb]
  · intro entity opts h hb
    rw [umbrella.Unpack, UnpackLoop_eq_listLoop,
      listLoop_first_error _ _ _ front b back err x h hb]
  · intro query h hb
    rw [umbrella.Catalog, CatalogLoop_eq_listLoop,
      listLoop_first_error _ _ _ front b back err x h hb]

/-- After "oci" has packed, "bad" fails: only the error comes back. -/
theorem umbrella_list_ops_first_error_witness :
    (∀ r ∈ returns (fun m => sample.Pack m ctx0 ⟨"app"⟩ []) [("a", "oci")] run0.world,
        r.2 = none) ∧
      (sample.Pack "bad" ctx0 ⟨"app"⟩ []
        (worldAfter (fun m => sample.Pack m ctx0 ⟨"app"⟩ []) [("a", "oci")] run0.world)).1 =
          ([⟨"app.bad"⟩], some sampleErr) ∧
      (umbrella.Pack sample ctx0 ⟨"app"⟩ [] ([("a", "oci")] ++ ("b", "bad") :: [("c", "tar")])
        run0).1 = ([], some sampleErr) :=
  ⟨by decide, by decide,
    (umbrella_list_ops_first_error sample ctx0 [("a", "oci")] ("b", "bad") [("c", "tar")]
      sampleErr run0).1 ⟨"app"⟩ [] (by decide) (by decide)⟩


/-! ## Error-only fan-out: `Update`, `AddSource`, `RemoveSource` -/

/-- C6: for each of `Update`, `AddSource` and `RemoveSource`, on any iteration
of the registry: when the backend `b` is the first whose call fails (the
backends `front` before it all succeed), the umbrella returns the error of `b`
unchanged, the backends invoked are exactly those of `front` followed by `b`,
once each and in that order, none of `back`, and the world is the one these
calls leave; when no backend of `entries` fails, the umbrella returns success
and the backends invoked are exactly those of `entries`, once each, in
order. -/
theorem umbrella_effect_ops_fail_fast {ι σ : Type} (impl : PackageManager ι σ) (ctx : Context)
    (source : String) (front : Registry ι) (b : ContextKey × ι) (back entries : Registry ι)
    (err : GoError) (x : Run σ) :
    ((∀ r ∈ returns (fun m => impl.Update m ctx) front x.world, r = none) →
      (impl.Update b.2 ctx (worldAfter (fun m => impl.Update m ctx) front x.world)).1 =
        some err →
      (umbrella.Update impl ctx (front ++ b :: back) x).1 = some err ∧
      invocations (umbrella.Update impl ctx (front ++ b :: back) x).2.trace =
        invocations x.trace ++ (front ++ [b]).map (fun e => (e.1, Call.Update ctx)) ∧
      (umbrella.Update impl ctx (front ++ b :: back) x).2.world =
        worldAfter (fun m => impl.Update m ctx) (front ++ [b]) x.world) ∧
    ((∀ r ∈ returns (fun m => impl.AddSource m ctx source) front x.world, r = none) →
      (impl.AddSource b.2 ctx source
        (worldAfter (fun m => impl.AddSource m ctx source) front x.world)).1 = some err →
      (umbrella.AddSource impl ctx source (front ++ b :: back) x).1 = some err ∧
      invocations (umbrella.AddSource impl ctx source (front ++ b :: back) x).2.trace =
        invocations x.trace ++
          (front ++ [b]).map (fun e => (e.1, Call.AddSource ctx source)) ∧
      (umbrella.AddSource impl ctx source (front ++ b :: back) x).2.world =
        worldAfter (fun m => impl.AddSource m ctx source) (front ++ [b]) x.world) ∧
    ((∀ r ∈ returns (fun m => impl.RemoveSource m ctx source) front x.world, r = none) →
      (impl.RemoveSource b.2 ctx source
        (worldAfter (fun m => impl.RemoveSource m ctx source) front x.world)).1 = some err →
      (umbrella.RemoveSource impl ctx source (front ++ b :: back) x).1 = some err ∧
      invocations (umbrella.RemoveSource impl ctx source (front ++ b :: back) x).2.trace =
        invocations x.trace ++
          (front ++ [b]).map (fun e => (e.1, Call.RemoveSource ctx source)) ∧
      (umbrella.RemoveSource impl ctx source (front ++ b :: back) x).2.world =
        worldAfter (fun m => impl.RemoveSource m ctx source) (front ++ [b]) x.world) ∧
    ((∀ r ∈ returns (fun m => impl.Update m ctx) entries x.world, r = none) →
      (umbrella.Update impl ctx entries x).1 = none ∧
      invocations (umbrella.Update impl ctx entries x).2.trace =
        invocations x.trace ++ entries.map (fun e => (e.1, Call.Update ctx)) ∧
      (umbrella.Update impl ctx entries x).2.world =
        worldAfter (fun m => impl.Update m ctx) entries x.world) ∧
    ((∀ r ∈ returns (fun m => impl.AddSource m ctx source) entries x.world, r = none) →
      (umbrella.AddSource impl ctx source entries x).1 = none ∧
      invocations (umbrella.AddSource impl ctx source entries x).2.trace =
        invocations x.trace ++ entries.map (fun e => (e.1, Call.AddSource ctx source)) ∧
      (umbrella.AddSource impl ctx source entries x).2.world =
        worldAfter (fun m => impl.AddSource m ctx source) entries x.world) ∧
    ((∀ r ∈ returns (fun m => impl.RemoveSource m ctx source) entries x.world, r = none) →
      (umbrella.RemoveSource impl ctx source entries x).1 = none ∧
      invocations (umbrella.RemoveSource impl ctx source entries x).2.trace =
        invocations x.trace ++ entries.map (fun e => (e.1, Call.RemoveSource ctx source)) ∧
      (umbrella.RemoveSource impl ctx source entries x).2.world =
        worldAfter (fun m => impl.RemoveSource m ctx source) entries x.world) := by
  refine ⟨?_, ?_, ?_, ?_, ?_, ?_⟩
  · intro h hb
    rw [Update_eq_errLoop]
    refine errLoop_first_error_summary _ _ ?_ _ front b back err x h hb
    intro e; rfl
  · intro h hb
    rw [AddSource_eq_errLoop]
    refine errLoop_first_error_summary _ _ ?_ _ front b back err x h hb
    intro e; rfl
  · intro h hb
    rw [RemoveSource_eq_errLoop]
    refine errLoop_first_error_summary _ _ ?_ _ front b back err x h hb
    intro e; rfl
  · intro h
    rw [Update_eq_errLoop]
    refine errLoop_all_ok_summary _ _ ?_ _ entries x h
    intro e; rfl
  · intro h
    rw [AddSource_eq_errLoop]
    refine errLoop_all_ok_summary _ _ ?_ _ entries x h
    intro e; rfl
  · intro h
    rw [RemoveSource_eq_errLoop]
    refine errLoop_all_ok_summary _ _ ?_ _ entries x h
    intro e; rfl

/-- The spec's scenario: "oci" updates, "bad" fails; "oci" and "bad" are invoked
once each, "tar" is not, and the world holds the two calls received. -/
theorem umbrella_effect_ops_fail_fast_witness :
    (∀ r ∈ returns (fun m => sample.Update m ctx0) [("a", "oci")] run0.world, r = none) ∧
      (sample.Update "bad" ctx0
        (worldAfter (fun m => sample.Update m ctx0) [("a", "oci")] run0.world)).1 =
          some sampleErr ∧
      (umbrella.Update sample ctx0 ([("a", "oci")] ++ ("b", "bad") :: [("c", "tar")]) run0).1 =
        some sampleErr ∧
      invocations
          (umbrella.Update sample ctx0 ([("a", "oci")] ++ ("b", "bad") :: [("c", "tar")])
            run0).2.trace =
        [("a", Call.Update ctx0), ("b", Call.Update ctx0)] ∧
      (umbrella.Update sample ctx0 ([("a", "oci")] ++ ("b", "bad") :: [("c", "tar")])
        run0).2.world = ["oci.Update", "bad.Update"] :=
  ⟨by decide, by decide,
    (umbrella_effect_ops_fail_fast sample ctx0 "" [("a", "oci")] ("b", "bad") [("c", "tar")] []
      sampleErr run0).1 (by decide) (by decide)⟩


/-! ## `IsCompatible` and `From` -/

section Resolver

variable {ι σ : Type} (impl : PackageManager ι σ)

theorem IsCompatible_all_fail (ctx : Context) (source : String) (entries : Registry ι) :
    ∀ x : Run σ,
      (∀ r ∈ returns (fun m => impl.IsCompatible m ctx source) entries x.world, r.2 ≠ none) →
      umbrella.IsCompatible impl ctx source entries x =
        ((none, some ⟨"cannot find compatible package manager for source: " ++ source⟩),
          ⟨worldAfter (fun m => impl.IsCompatible m ctx source) entries x.world,
            x.trace ++ entries.map (fun e => Event.Invoke e.1 (Call.IsCompatible ctx source))⟩)
    := by
  induction entries with
  | nil => intro x _; simp [umbrella.IsCompatible, worldAfter, Errorf]
  | cons e rest ih =>
    obtain ⟨k, m⟩ := e
    intro x h
    have h0 : (impl.IsCompatible m ctx source x.world).1.2 ≠ none := h _ (by simp [returns])
    obtain ⟨err, herr⟩ := Option.ne_none_iff_exists'.mp h0
    have hrest : ∀ r ∈ returns (fun m => impl.IsCompatible m ctx source) rest
        (impl.IsCompatible m ctx source x.world).2, r.2 ≠ none :=
      fun r hr => h r (by simp [returns, hr])
    simp only [umbrella.IsCompatible, Run.invoke, herr]
    rw [ih _ hrest]
    simp [worldAfter]

theorem IsCompatible_first_ok (ctx : Context) (source : String) (front : Registry ι)
    (b : ContextKey × ι) (back : Registry ι) :
    ∀ x : Run σ,
      (∀ r ∈ returns (fun m => impl.IsCompatible m ctx source) front x.world, r.2 ≠ none) →
      (impl.IsCompatible b.2 ctx source
        (worldAfter (fun m => impl.IsCompatible m ctx source) front x.world)).1.2 = none →
      umbrella.IsCompatible impl ctx source (front ++ b :: back) x =
        (((impl.IsCompatible b.2 ctx source
            (worldAfter (fun m => impl.IsCompatible m ctx source) front x.world)).1.1, none),
          ⟨(impl.IsCompatible b.2 ctx source
              (worldAfter (fun m => impl.IsCompatible m ctx source) front x.world)).2,
            x.trace ++ (front ++ [b]).map
              (fun e => Event.Invoke e.1 (Call.IsCompatible ctx source))⟩) := by
  induction front with
  | nil =>
    obtain ⟨k, m⟩ := b
    intro x _ hb
    simp only [worldAfter] at hb
    simp [umbrella.IsCompatible, Run.invoke, hb, worldAfter]
  | cons e rest ih =>
    obtain ⟨k, m⟩ := e
    intro x h hb
    have h0 : (impl.IsCompatible m ctx source x.world).1.2 ≠ none := h _ (by simp [returns])
    obtain ⟨err, herr⟩ := Option.ne_none_iff_exists'.mp h0
    have hrest : ∀ r ∈ returns (fun m => impl.IsCompatible m ctx source) rest
        (impl.IsCompatible m ctx source x.world).2, r.2 ≠ none :=
      fun r hr => h r (by simp [returns, hr])
    simp only [List.cons_append, umbrella.IsCompatible, Run.invoke, herr, List.append_eq]
    rw [ih _ hrest (by simpa [worldAfter] using hb)]
    simp [worldAfter]

theorem From_eq_find (name : String) (entries : Registry ι) :
    umbrella.From impl name entries =
      match entries.find? (fun e => impl.Format e.2 = name) with
      | some e => (some e.2, none)
      | none => (none, some ⟨"unknown package manager: " ++ name⟩) := by
  induction entries with
  | nil => simp [umbrella.From, Errorf]
  | cons e rest ih =>
    obtain ⟨k, m⟩ := e
    by_cases h : impl.Format m = name
    · simp [umbrella.From, h]
    · simp [umbrella.From, h, ih, List.find?_cons]

end Resolver

/-- C7, as stated, fails: the only registered backend, "proxy", reports the
source compatible, and the umbrella returns the backend "oci" that "proxy"
handed back, not "proxy" itself. -/
theorem umbrella_IsCompatible_first_backend_counterexample :
    (sample.IsCompatible "proxy" ctx0 "src" run0.world).1.2 = none ∧
      (umbrella.IsCompatible sample ctx0 "src" [("p", "proxy")] run0).1 = (some "oci", none) ∧
      (umbrella.IsCompatible sample ctx0 "src" [("p", "proxy")] run0).1.1 ≠ some "proxy" := by
  decide

/-- C7 (amended): when at least one backend's `IsCompatible` succeeds on the
source, there is a first such backend `b` in iteration order (the backends
`front` before it all fail), the umbrella returns no error, and the backend it
returns is the value that the `IsCompatible` call of `b` returned. -/
theorem umbrella_IsCompatible_first_success {ι σ : Type} (impl : PackageManager ι σ)
    (ctx : Context) (source : String) (entries : Registry ι) (x : Run σ)
    (h : ∃ r ∈ returns (fun m => impl.IsCompatible m ctx source) entries x.world, r.2 = none) :
    ∃ front b back, entries = front ++ b :: back ∧
      (∀ r ∈ returns (fun m => impl.IsCompatible m ctx source) front x.world, r.2 ≠ none) ∧
      (impl.IsCompatible b.2 ctx source
        (worldAfter (fun m => impl.IsCompatible m ctx source) front x.world)).1.2 = none ∧
      (umbrella.IsCompatible impl ctx source entries x).1 =
        ((impl.IsCompatible b.2 ctx source
          (worldAfter (fun m => impl.IsCompatible m ctx source) front x.world)).1.1, none) := by
  rcases returns_first (fun m => impl.IsCompatible m ctx source) (fun r => r.2 ≠ none) entries
    x.world with hall | ⟨front, b, back, he, hfront, hb⟩
  · obtain ⟨r, hr, hnone⟩ := h
    exact absurd hnone (hall r hr)
  · have hb' := not_not.mp hb
    refine ⟨front, b, back, he, hfront, hb', ?_⟩
    rw [he, IsCompatible_first_ok impl ctx source front b back x hfront hb']

/-- After "bad" has refused the source, "proxy" accepts it and names "oci". -/
theorem umbrella_IsCompatible_first_success_witness :
    (∃ r ∈ returns (fun m => sample.IsCompatible m ctx0 "src")
        [("b", "bad"), ("p", "proxy"), ("c", "tar")] run0.world, r.2 = none) ∧
      ∃ front b back, [("b", "bad"), ("p", "proxy"), ("c", "tar")] = front ++ b :: back ∧
        (∀ r ∈ returns (fun m => sample.IsCompatible m ctx0 "src") front run0.world,
          r.2 ≠ none) ∧
        (sample.IsCompatible b.2 ctx0 "src"
          (worldAfter (fun m => sample.IsCompatible m ctx0 "src") front run0.world)).1.2 = none ∧
        (umbrella.IsCompatible sample ctx0 "src" [("b", "bad"), ("p", "proxy"), ("c", "tar")]
          run0).1 =
          ((sample.IsCompatible b.2 ctx0 "src"
            (worldAfter (fun m => sample.IsCompatible m ctx0 "src") front run0.world)).1.1,
            none) :=
  ⟨by decide,
    umbrella_IsCompatible_first_success sample ctx0 "src"
      [("b", "bad"), ("p", "proxy"), ("c", "tar")] run0 (by decide)⟩

/-- C8: the umbrella's `IsCompatible` fails exactly when every backend's
`IsCompatible` fails on the source (so always on an empty registry); when it
fails it returns the nil backend and the error whose text is "cannot find
compatible package manager for source: " followed by the source, whatever the
errors of the backends were. -/
theorem umbrella_IsCompatible_fails_iff {ι σ : Type} (impl : PackageManager ι σ)
    (ctx : Context) (source : String) (entries : Registry ι) (x : Run σ) :
    ((umbrella.IsCompatible impl ctx source entries x).1.2 ≠ none ↔
        ∀ r ∈ returns (fun m => impl.IsCompatible m ctx source) entries x.world, r.2 ≠ none) ∧
      ((umbrella.IsCompatible impl ctx source entries x).1.2 ≠ none →
        (umbrella.IsCompatible impl ctx source entries x).1 =
          (none, some ⟨"cannot find compatible package manager for source: " ++ source⟩)) ∧
      (umbrella.IsCompatible impl ctx source ([] : Registry ι) x).1 =
        (none, some ⟨"cannot find compatible package manager for source: " ++ source⟩) := by
  have key : (umbrella.IsCompatible impl ctx source entries x).1.2 ≠ none →
      ∀ r ∈ returns (fun m => impl.IsCompatible m ctx source) entries x.world, r.2 ≠ none := by
    intro hfail
    rcases returns_first (fun m => impl.IsCompatible m ctx source) (fun r => r.2 ≠ none)
      entries x.world with hall | ⟨front, b, back, he, hfront, hb⟩
    · exact hall
    · rw [he, IsCompatible_first_ok impl ctx source front b back x hfront (not_not.mp hb)]
        at hfail
      exact absurd rfl hfail
  refine ⟨⟨key, ?_⟩, ?_, ?_⟩
  · intro hall
    rw [IsCompatible_all_fail impl ctx source entries x hall]
    simp
  · intro hfail
    rw [IsCompatible_all_fail impl ctx source entries x (key hfail)]
  · rw [IsCompatible_all_fail impl ctx source [] x (by simp [returns])]

/-- C9: on any iteration of the registry, `From(name)` succeeds exactly when
some registered backend has `Format()` equal to `name`; when it succeeds it
returns a registered backend whose `Format()` is `name`, the first such in
iteration order; when it fails it returns the nil backend and the error whose
text is "unknown package manager: " followed by `name`. -/
theorem umbrella_From_by_format {ι σ : Type} (impl : PackageManager ι σ)
    (reg entries : Registry ι) (hrange : IsRange reg entries) (name : String) :
    ((umbrella.From impl name entries).2 = none ↔ ∃ e ∈ reg, impl.Format e.2 = name) ∧
      ((umbrella.From impl name entries).2 = none →
        ∃ e ∈ reg, impl.Format e.2 = name ∧
          entries.find? (fun e => impl.Format e.2 = name) = some e ∧
          umbrella.From impl name entries = (some e.2, none)) ∧
      ((umbrella.From impl name entries).2 ≠ none →
        umbrella.From impl name entries =
          (none, some ⟨"unknown package manager: " ++ name⟩)) := by
  rw [From_eq_find]
  cases hfind : entries.find? (fun e => impl.Format e.2 = name) with
  | some e =>
    have hmem : e ∈ reg := (List.Perm.mem_iff hrange).1 (List.mem_of_find?_eq_some hfind)
    have hfmt : impl.Format e.2 = name := by
      simpa using List.find?_some hfind
    exact ⟨⟨fun _ => ⟨e, hmem, hfmt⟩, fun _ => rfl⟩,
      fun _ => ⟨e, hmem, hfmt, rfl, rfl⟩, fun h => absurd rfl h⟩
  | none =>
    refine ⟨⟨fun h => ?_, ?_⟩, fun h => ?_, fun _ => rfl⟩
    · simp at h
    · rintro ⟨e, he, hfmt⟩
      have := List.find?_eq_none.1 hfind e ((List.Perm.mem_iff hrange).2 he)
      simp [hfmt] at this
    · simp at h

/-- The spec's example: `From("tar")` finds the backend "tar" whatever the
iteration order. -/
theorem umbrella_From_by_format_witness :
    IsRange [("a", "oci"), ("b", "tar")] [("b", "tar"), ("a", "oci")] ∧
      ((umbrella.From sample "tar" [("b", "tar"), ("a", "oci")]).2 = none ↔
        ∃ e ∈ [("a", "oci"), ("b", "tar")], sample.Format e.2 = "tar") ∧
      ((umbrella.From sample "tar" [("b", "tar"), ("a", "oci")]).2 = none →
        ∃ e ∈ [("a", "oci"), ("b", "tar")], sample.Format e.2 = "tar" ∧
          List.find? (fun e => sample.Format e.2 = "tar") [("b", "tar"), ("a", "oci")] =
            some e ∧
          umbrella.From sample "tar" [("b", "tar"), ("a", "oci")] = (some e.2, none)) ∧
      ((umbrella.From sample "tar" [("b", "tar"), ("a", "oci")]).2 ≠ none →
        umbrella.From sample "tar" [("b", "tar"), ("a", "oci")] =
          (none, some ⟨"unknown package manager: " ++ "tar"⟩)) :=
  ⟨List.Perm.swap _ _ _,
    umbrella_From_by_format sample [("a", "oci"), ("b", "tar")] [("b", "tar"), ("a", "oci")]
      (List.Perm.swap _ _ _) "tar"⟩

/-! ## All or nothing -/

/-- C10, as stated, fails: the sample backend "once" fails `Update` only when
some call was received before it.  With "once" and "oci" registered, each
backend's own `Update` call succeeds on the fresh world, the umbrella succeeds
in one iteration order of the registry and fails in the other: whether the
call succeeds is not independent of the order. -/
theorem umbrella_fanout_order_counterexample :
    IsRange [("a", "once"), ("b", "oci")] [("a", "once"), ("b", "oci")] ∧
      IsRange [("a", "once"), ("b", "oci")] [("b", "oci"), ("a", "once")] ∧
      (∀ e ∈ [("a", "once"), ("b", "oci")], (sample.Update e.2 ctx0 run0.world).1 = none) ∧
      (umbrella.Update sample ctx0 [("a", "once"), ("b", "oci")] run0).1 = none ∧
      (umbrella.Update sample ctx0 [("b", "oci"), ("a", "once")] run0).1 = some sampleErr :=
  ⟨List.Perm.refl _, List.Perm.swap _ _ _, by decide, by decide, by decide⟩

/-- C10 (amended): on any iteration `entries` of the registry `reg`, each of
`Update`, `AddSource`, `RemoveSource`, `Pack`, `Unpack` and `Catalog` succeeds
exactly when every backend's call, made in turn in that iteration (each in the
world left by the calls before it), succeeds; for backends whose success on
the given input does not depend on the world in which they are called, that
is exactly when every registered backend's call succeeds, a condition in which
the iteration order does not occur.  With no assumption on the backends,
`Pack`, `Unpack` and `Catalog` never return an error together with data: the
slice returned next to an error is nil. -/
theorem umbrella_fanout_all_or_nothing {ι σ : Type} (impl : PackageManager ι σ)
    (reg entries : Registry ι) (hrange : IsRange reg entries) (ctx : Context)
    (source : String) (entity : Component) (popts : List PackOption) (pkg : Package)
    (uopts : List UnpackOption) (query : CatalogQuery) (x : Run σ) :
    (((umbrella.Update impl ctx entries x).1 = none ↔
        ∀ r ∈ returns (fun m => impl.Update m ctx) entries x.world, r = none) ∧
      (OutcomeFixed (fun m => impl.Update m ctx) reg →
        ((umbrella.Update impl ctx entries x).1 = none ↔
          ∀ e ∈ reg, ∀ w : σ, (impl.Update e.2 ctx w).1 = none))) ∧
    (((umbrella.AddSource impl ctx source entries x).1 = none ↔
        ∀ r ∈ returns (fun m => impl.AddSource m ctx source) entries x.world, r = none) ∧
      (OutcomeFixed (fun m => impl.AddSource m ctx source) reg →
        ((umbrella.AddSource impl ctx source entries x).1 = none ↔
          ∀ e ∈ reg, ∀ w : σ, (impl.AddSource e.2 ctx source w).1 = none))) ∧
    (((umbrella.RemoveSource impl ctx source entries x).1 = none ↔
        ∀ r ∈ returns (fun m => impl.RemoveSource m ctx source) entries x.world, r = none) ∧
      (OutcomeFixed (fun m => impl.RemoveSource m ctx source) reg →
        ((umbrella.RemoveSource impl ctx source entries x).1 = none ↔
          ∀ e ∈ reg, ∀ w : σ, (impl.RemoveSource e.2 ctx source w).1 = none))) ∧
    (((umbrella.Pack impl ctx entity popts entries x).1.2 = none ↔
        ∀ r ∈ returns (fun m => impl.Pack m ctx entity popts) entries x.world, r.2 = none) ∧
      (OutcomeFixed (errOf (fun m => impl.Pack m ctx entity popts)) reg →
        ((umbrella.Pack impl ctx entity popts entries x).1.2 = none ↔
          ∀ e ∈ reg, ∀ w : σ, (impl.Pack e.2 ctx entity popts w).1.2 = none)) ∧
      ∀ err, (umbrella.Pack impl ctx entity popts entries x).1.2 = some err →
        (umbrella.Pack impl ctx entity popts entries x).1.1 = []) ∧
    (((umbrella.Unpack impl ctx pkg uopts entries x).1.2 = none ↔
        ∀ r ∈ returns (fun m => impl.Unpack m ctx pkg uopts) entries x.world, r.2 = none) ∧
      (OutcomeFixed (errOf (fun m => impl.Unpack m ctx pkg uopts)) reg →
        ((umbrella.Unpack impl ctx pkg uopts entries x).1.2 = none ↔
          ∀ e ∈ reg, ∀ w : σ, (impl.Unpack e.2 ctx pkg uopts w).1.2 = none)) ∧
      ∀ err, (umbrella.Unpack impl ctx pkg uopts entries x).1.2 = some err →
        (umbrella.Unpack impl ctx pkg uopts entries x).1.1 = []) ∧
    (((umbrella.Catalog impl ctx query entries x).1.2 = none ↔
        ∀ r ∈ returns (fun m => impl.Catalog m ctx query) entries x.world, r.2 = none) ∧
      (OutcomeFixed (errOf (fun m => impl.Catalog m ctx query)) reg →
        ((umbrella.Catalog impl ctx query entries x).1.2 = none ↔
          ∀ e ∈ reg, ∀ w : σ, (impl.Catalog e.2 ctx query w).1.2 = none)) ∧
      ∀ err, (umbrella.Catalog impl ctx query entries x).1.2 = some err →
        (umbrella.Catalog impl ctx query entries x).1.1 = []) := by
  refine ⟨?_, ?_, ?_, ?_, ?_, ?_⟩
  · rw [Update_eq_errLoop]
    exact ⟨errLoop_none_iff _ _ _ entries x,
      fun hfix => errLoop_none_iff_of_fixed _ _ _ reg entries hrange x hfix⟩
  · rw [AddSource_eq_errLoop]
    exact ⟨errLoop_none_iff _ _ _ entries x,
      fun hfix => errLoop_none_iff_of_fixed _ _ _ reg entries hrange x hfix⟩
  · rw [RemoveSource_eq_errLoop]
    exact ⟨errLoop_none_iff _ _ _ entries x,
      fun hfix => errLoop_none_iff_of_fixed _ _ _ reg entries hrange x hfix⟩
  · rw [umbrella.Pack, PackLoop_eq_listLoop]
    exact ⟨listLoop_none_iff _ _ _ entries [] x,
      fun hfix => listLoop_none_iff_of_fixed _ _ _ reg entries hrange [] x hfix,
      fun err => listLoop_no_data_with_error _ _ _ entries [] x err⟩
  · rw [umbrella.Unpack, UnpackLoop_eq_listLoop]
    exact ⟨listLoop_none_iff _ _ _ entries [] x,
      fun hfix => listLoop_none_iff_of_fixed _ _ _ reg entries hrange [] x hfix,
      fun err => listLoop_no_data_with_error _ _ _ entries [] x err⟩
  · rw [umbrella.Catalog, CatalogLoop_eq_listLoop]
    exact ⟨listLoop_none_iff _ _ _ entries [] x,
      fun hfix => listLoop_none_iff_of_fixed _ _ _ reg entries hrange [] x hfix,
      fun err => listLoop_no_data_with_error _ _ _ entries [] x err⟩

/-- The sample backends "oci" and "tar" never fail `Update`. -/
theorem sample_update_fixed :
    OutcomeFixed (fun m => sample.Update m ctx0) [("a", "oci"), ("b", "tar")] := by
  intro e he w w'
  simp only [List.mem_cons, List.mem_singleton, List.not_mem_nil, or_false] at he
  rcases he with rfl | rfl <;> simp [sample, sampleUpdate, sampleErrOf]

/-- With "oci" and "tar" registered, `Update` succeeds in the swapped iteration
order too. -/
theorem umbrella_fanout_all_or_nothing_witness :
    IsRange [("a", "oci"), ("b", "tar")] [("b", "tar"), ("a", "oci")] ∧
      OutcomeFixed (fun m => sample.Update m ctx0) [("a", "oci"), ("b", "tar")] ∧
      ((umbrella.Update sample ctx0 [("b", "tar"), ("a", "oci")] run0).1 = none ↔
        ∀ e ∈ [("a", "oci"), ("b", "tar")], ∀ w : List String,
          (sample.Update e.2 ctx0 w).1 = none) :=
  ⟨List.Perm.swap _ _ _, sample_update_fixed,
    (umbrella_fanout_all_or_nothing sample [("a", "oci"), ("b", "tar")]
      [("b", "tar"), ("a", "oci")] (List.Perm.swap _ _ _) ctx0 "" ⟨"app"⟩ [] ⟨"pkg"⟩ [] ⟨0⟩
      run0).1.2 sample_update_fixed⟩


/-! ## What the loops log and invoke -/

section Traces

variable {ι σ α β : Type}

/-- The events appended by the error-only loop are the steps of the backends it
reached. -/
theorem errLoop_trace (op : ι → σ → Option GoError × σ) (pre : ContextKey × ι → List Event)
    (call : Call) (entries : Registry ι) (x : Run σ) :
    ∃ n, (errLoop op pre call entries x).2.trace =
      x.trace ++ (entries.take n).flatMap (stepEvents pre call) := by
  rcases returns_cases op entries x.world with hall | ⟨front, b, back, err, he, hfront, hb⟩
  · exact ⟨entries.length, by rw [errLoop_all_ok op pre call entries x hall, List.take_length]⟩
  · refine ⟨front.length + 1, ?_⟩
    have htake : (front ++ b :: back).take (front.length + 1) = front ++ [b] := by
      rw [List.take_append_eq_append_take, List.take_of_length_le (by omega)]
      simp
    rw [he, errLoop_first_error op pre call front b back err x hfront hb, htake]

/-- In a sequence of steps made of one logged line and one invocation, every
invocation directly follows the line logged for its backend. -/
theorem invoke_after_line (line : ContextKey × ι → Event)
    (hline : ∀ e k c, line e ≠ Event.Invoke k c) (call : Call) (l : Registry ι) :
    ∀ (i : Nat) (k : ContextKey) (c : Call),
      (l.flatMap (fun e => [line e, Event.Invoke e.1 call]))[i]? = some (Event.Invoke k c) →
      ∃ j e, i = j + 1 ∧ e ∈ l ∧ e.1 = k ∧ c = call ∧
        (l.flatMap (fun e => [line e, Event.Invoke e.1 call]))[j]? = some (line e) := by
  induction l with
  | nil => intro i k c h; simp at h
  | cons e rest ih =>
    intro i k c h
    rw [List.flatMap_cons] at h ⊢
    match i, h with
    | 0, h =>
      simp at h
      exact absurd h (hline e k c)
    | 1, h =>
      simp at h
      exact ⟨0, e, rfl, by simp, h.1, h.2.symm, by simp⟩
    | i + 2, h =>
      have h' : (rest.flatMap (fun e => [line e, Event.Invoke e.1 call]))[i]? =
          some (Event.Invoke k c) := by simpa using h
      obtain ⟨j, e', hj, he', hk, hc, hget⟩ := ih i k c h'
      refine ⟨j + 2, e', by omega, by simp [he'], hk, hc, ?_⟩
      simpa using hget

end Traces
/-- C11, as stated, fails for `Update`: with one backend registered, the trace of
`Update` is the invocation alone, with no logged line before it. -/
theorem umbrella_Update_logs_nothing_counterexample :
    (umbrella.Update sample ctx0 [("a", "oci")] run0).2.trace =
      [Event.Invoke "a" (Call.Update ctx0)] := by
  decide

/-- C11 (amended): for `AddSource` and `RemoveSource`, on any iteration of the
registry, every backend invocation among the events of the call directly
follows a line logged with `Tracef` that names the source and the `Format()` of
the backend invoked; the events of `Update` are backend invocations only. -/
theorem umbrella_source_ops_log_before_invoke {ι σ : Type} (impl : PackageManager ι σ)
    (ctx : Context) (source : String) (entries : Registry ι) (x : Run σ) :
    (∃ t, (umbrella.AddSource impl ctx source entries x).2.trace = x.trace ++ t ∧
      ∀ (i : Nat) (k : ContextKey) (c : Call), t[i]? = some (Event.Invoke k c) →
        ∃ j e, i = j + 1 ∧ e ∈ entries ∧ e.1 = k ∧ c = Call.AddSource ctx source ∧
          t[j]? = some (Event.Tracef ctx
            ("Adding source " ++ source ++ " via " ++ impl.Format e.2 ++ "..."))) ∧
    (∃ t, (umbrella.RemoveSource impl ctx source entries x).2.trace = x.trace ++ t ∧
      ∀ (i : Nat) (k : ContextKey) (c : Call), t[i]? = some (Event.Invoke k c) →
        ∃ j e, i = j + 1 ∧ e ∈ entries ∧ e.1 = k ∧ c = Call.RemoveSource ctx source ∧
          t[j]? = some (Event.Tracef ctx
            ("Removing source " ++ source ++ " via " ++ impl.Format e.2 ++ "..."))) ∧
    (∃ t, (umbrella.Update impl ctx entries x).2.trace = x.trace ++ t ∧
      ∀ ev ∈ t, ∃ e ∈ entries, ev = Event.Invoke e.1 (Call.Update ctx)) := by
  refine ⟨?_, ?_, ?_⟩
  · obtain ⟨n, hn⟩ := errLoop_trace (fun m => impl.AddSource m ctx source)
      (fun e => [Event.Tracef ctx
        ("Adding source " ++ source ++ " via " ++ impl.Format e.2 ++ "...")])
      (Call.AddSource ctx source) entries x
    rw [AddSource_eq_errLoop]
    refine ⟨_, hn, ?_⟩
    intro i k c h
    obtain ⟨j, e, hj, he, hk, hc, hget⟩ := invoke_after_line
      (fun e => Event.Tracef ctx
        ("Adding source " ++ source ++ " via " ++ impl.Format e.2 ++ "..."))
      (fun _ _ _ => by simp) (Call.AddSource ctx source) (entries.take n) i k c
      (by simpa [stepEvents] using h)
    exact ⟨j, e, hj, List.mem_of_mem_take he, hk, hc, by simpa [stepEvents] using hget⟩
  · obtain ⟨n, hn⟩ := errLoop_trace (fun m => impl.RemoveSource m ctx source)
      (fun e => [Event.Tracef ctx
        ("Removing source " ++ source ++ " via " ++ impl.Format e.2 ++ "...")])
      (Call.RemoveSource ctx source) entries x
    rw [RemoveSource_eq_errLoop]
    refine ⟨_, hn, ?_⟩
    intro i k c h
    obtain ⟨j, e, hj, he, hk, hc, hget⟩ := invoke_after_line
      (fun e => Event.Tracef ctx
        ("Removing source " ++ source ++ " via " ++ impl.Format e.2 ++ "..."))
      (fun _ _ _ => by simp) (Call.RemoveSource ctx source) (entries.take n) i k c
      (by simpa [stepEvents] using h)
    exact ⟨j, e, hj, List.mem_of_mem_take he, hk, hc, by simpa [stepEvents] using hget⟩
  · obtain ⟨n, hn⟩ := errLoop_trace (fun m => impl.Update m ctx) (fun _ => [])
      (Call.Update ctx) entries x
    rw [Update_eq_errLoop]
    refine ⟨_, hn, ?_⟩
    intro ev hev
    simp only [List.mem_flatMap, stepEvents, List.nil_append, List.mem_singleton] at hev
    obtain ⟨e, he, rfl⟩ := hev
    exact ⟨e, List.mem_of_mem_take he, rfl⟩

/-- C14: on any iteration of the registry, when the backend `b` is the first
whose `IsCompatible` succeeds (the backends `front` before it all fail), the
umbrella returns exactly the backend value that the call of `b` returned, with
no error, whatever the errors of `front` were; the backends invoked are those
of `front` followed by `b`, in order, and none of `back`. -/
theorem umbrella_IsCompatible_returns_delegate {ι σ : Type} (impl : PackageManager ι σ)
    (ctx : Context) (source : String) (front : Registry ι) (b : ContextKey × ι)
    (back : Registry ι) (x : Run σ)
    (hfront : ∀ r ∈ returns (fun m => impl.IsCompatible m ctx source) front x.world,
      r.2 ≠ none)
    (hb : (impl.IsCompatible b.2 ctx source
      (worldAfter (fun m => impl.IsCompatible m ctx source) front x.world)).1.2 = none) :
    (umbrella.IsCompatible impl ctx source (front ++ b :: back) x).1 =
        ((impl.IsCompatible b.2 ctx source
          (worldAfter (fun m => impl.IsCompatible m ctx source) front x.world)).1.1, none) ∧
      (umbrella.IsCompatible impl ctx source (front ++ b :: back) x).2.trace =
        x.trace ++ (front ++ [b]).map
          (fun e => Event.Invoke e.1 (Call.IsCompatible ctx source)) ∧
      (umbrella.IsCompatible impl ctx source (front ++ b :: back) x).2.world =
        worldAfter (fun m => impl.IsCompatible m ctx source) (front ++ [b]) x.world := by
  rw [IsCompatible_first_ok impl ctx source front b back x hfront hb]
  refine ⟨rfl, rfl, ?_⟩
  simp [worldAfter_append, worldAfter]

/-- After "bad" has failed, "proxy" answers with "oci"; "tar" is not asked. -/
theorem umbrella_IsCompatible_returns_delegate_witness :
    (∀ r ∈ returns (fun m => sample.IsCompatible m ctx0 "src") [("b", "bad")] run0.world,
        r.2 ≠ none) ∧
      (sample.IsCompatible "proxy" ctx0 "src"
        (worldAfter (fun m => sample.IsCompatible m ctx0 "src") [("b", "bad")]
          run0.world)).1 = (some "oci", none) ∧
      (umbrella.IsCompatible sample ctx0 "src"
        ([("b", "bad")] ++ ("p", "proxy") :: [("c", "tar")]) run0).1 = (some "oci", none) ∧
      (umbrella.IsCompatible sample ctx0 "src"
        ([("b", "bad")] ++ ("p", "proxy") :: [("c", "tar")]) run0).2.trace =
          [Event.Invoke "b" (Call.IsCompatible ctx0 "src"),
            Event.Invoke "p" (Call.IsCompatible ctx0 "src")] ∧
      (umbrella.IsCompatible sample ctx0 "src"
        ([("b", "bad")] ++ ("p", "proxy") :: [("c", "tar")]) run0).2.world =
          ["bad.IsCompatible", "proxy.IsCompatible"] :=
  ⟨by decide, by decide,
    umbrella_IsCompatible_returns_delegate sample ctx0 "src" [("b", "bad")] ("p", "proxy")
      [("c", "tar")] run0 (by decide) (by decide)⟩

/-! ## Iteration order -/

section Order

variable {ι σ α β : Type}

/-- With fixed results, the values returned along an iteration are those of its
backends, taken in any one world. -/
theorem returns_of_fixed (op : ι → σ → α × σ) (reg : Registry ι) (hfix : ResultFixed op reg)
    (w₀ : σ) (entries : Registry ι) :
    (∀ e ∈ entries, e ∈ reg) →
      ∀ w : σ, returns op entries w = entries.map (fun e => (op e.2 w₀).1) := by
  induction entries with
  | nil => intro _ w; rfl
  | cons e rest ih =>
    intro hsub w
    simp only [returns, List.map_cons]
    rw [ih (fun e' he' => hsub e' (by simp [he'])), hfix e (hsub e (by simp)) w w₀]

/-- With fixed results, two iterations of the same registry on which the list
loop succeeds return permutations of one another. -/
theorem listLoop_perm_of_fixed (op : ι → σ → (List β × Option GoError) × σ)
    (pre : ContextKey × ι → List Event) (call : Call) (reg entries₁ entries₂ : Registry ι)
    (h₁ : IsRange reg entries₁) (h₂ : IsRange reg entries₂) (x₁ x₂ : Run σ)
    (hfix : ResultFixed op reg)
    (hok₁ : ∀ r ∈ returns op entries₁ x₁.world, r.2 = none)
    (hok₂ : ∀ r ∈ returns op entries₂ x₂.world, r.2 = none) :
    List.Perm (listLoop op pre call entries₁ [] x₁).1.1
        (listLoop op pre call entries₂ [] x₂).1.1 ∧
      (listLoop op pre call entries₁ [] x₁).1.1.length =
        (listLoop op pre call entries₂ [] x₂).1.1.length := by
  have hperm : List.Perm (listLoop op pre call entries₁ [] x₁).1.1
      (listLoop op pre call entries₂ [] x₂).1.1 := by
    rw [listLoop_all_ok op pre call entries₁ x₁ hok₁,
      listLoop_all_ok op pre call entries₂ x₂ hok₂]
    simp only
    rw [returns_of_fixed op reg hfix x₁.world entries₁
        (fun e he => (List.Perm.mem_iff h₁).1 he),
      returns_of_fixed op reg hfix x₁.world entries₂
        (fun e he => (List.Perm.mem_iff h₂).1 he)]
    exact List.Perm.flatten
      (List.Perm.map _ (List.Perm.map _ (List.Perm.trans h₁ (List.Perm.symm h₂))))
  exact ⟨hperm, List.Perm.length_eq hperm⟩

end Order

/-- C15, as stated, fails: the backend "cache" answers with one item per call
recorded in the world.  With "cache" and "oci" registered, every call succeeds
in both iteration orders of the registry, and each of `Pack`, `Unpack` and
`Catalog` returns one item in one order and two in the other: the two results
are not permutations of one another. -/
theorem umbrella_list_ops_perm_counterexample :
    IsRange [("a", "cache"), ("b", "oci")] [("a", "cache"), ("b", "oci")] ∧
      IsRange [("a", "cache"), ("b", "oci")] [("b", "oci"), ("a", "cache")] ∧
      ((∀ r ∈ returns (fun m => caching.Pack m ctx0 ⟨"app"⟩ [])
          [("a", "cache"), ("b", "oci")] run0.world, r.2 = none) ∧
        (∀ r ∈ returns (fun m => caching.Pack m ctx0 ⟨"app"⟩ [])
          [("b", "oci"), ("a", "cache")] run0.world, r.2 = none) ∧
        (umbrella.Pack caching ctx0 ⟨"app"⟩ [] [("a", "cache"), ("b", "oci")] run0).1 =
          ([⟨"app.oci"⟩], none) ∧
        (umbrella.Pack caching ctx0 ⟨"app"⟩ [] [("b", "oci"), ("a", "cache")] run0).1 =
          ([⟨"app.oci"⟩, ⟨"oci.Pack"⟩], none) ∧
        ¬ List.Perm
          (umbrella.Pack caching ctx0 ⟨"app"⟩ [] [("a", "cache"), ("b", "oci")] run0).1.1
          (umbrella.Pack caching ctx0 ⟨"app"⟩ [] [("b", "oci"), ("a", "cache")] run0).1.1) ∧
      ((∀ r ∈ returns (fun m => caching.Unpack m ctx0 ⟨"pkg"⟩ [])
          [("a", "cache"), ("b", "oci")] run0.world, r.2 = none) ∧
        (∀ r ∈ returns (fun m => caching.Unpack m ctx0 ⟨"pkg"⟩ [])
          [("b", "oci"), ("a", "cache")] run0.world, r.2 = none) ∧
        (umbrella.Unpack caching ctx0 ⟨"pkg"⟩ [] [("a", "cache"), ("b", "oci")] run0).1 =
          ([⟨"pkg/oci"⟩], none) ∧
        (umbrella.Unpack caching ctx0 ⟨"pkg"⟩ [] [("b", "oci"), ("a", "cache")] run0).1 =
          ([⟨"pkg/oci"⟩, ⟨"oci.Unpack"⟩], none) ∧
        ¬ List.Perm
          (umbrella.Unpack caching ctx0 ⟨"pkg"⟩ [] [("a", "cache"), ("b", "oci")] run0).1.1
          (umbrella.Unpack caching ctx0 ⟨"pkg"⟩ [] [("b", "oci"), ("a", "cache")] run0).1.1) ∧
      ((∀ r ∈ returns (fun m => caching.Catalog m ctx0 ⟨0⟩)
          [("a", "cache"), ("b", "oci")] run0.world, r.2 = none) ∧
        (∀ r ∈ returns (fun m => caching.Catalog m ctx0 ⟨0⟩)
          [("b", "oci"), ("a", "cache")] run0.world, r.2 = none) ∧
        (umbrella.Catalog caching ctx0 ⟨0⟩ [("a", "cache"), ("b", "oci")] run0).1 =
          ([⟨"oci"⟩], none) ∧
        (umbrella.Catalog caching ctx0 ⟨0⟩ [("b", "oci"), ("a", "cache")] run0).1 =
          ([⟨"oci"⟩, ⟨"oci.Catalog"⟩], none) ∧
        ¬ List.Perm
          (umbrella.Catalog caching ctx0 ⟨0⟩ [("a", "cache"), ("b", "oci")] run0).1.1
          (umbrella.Catalog caching ctx0 ⟨0⟩ [("b", "oci"), ("a", "cache")] run0).1.1) :=
  ⟨List.Perm.refl _, List.Perm.swap _ _ _,
    ⟨by decide, by decide, by decide, by decide, fun h => absurd h.length_eq (by decide)⟩,
    ⟨by decide, by decide, by decide, by decide, fun h => absurd h.length_eq (by decide)⟩,
    ⟨by decide, by decide, by decide, by decide, fun h => absurd h.length_eq (by decide)⟩⟩

/-- C15 (amended): for each of `Pack`, `Unpack` and `Catalog`, with backends
whose answer on the given input does not depend on the world in which they are
called: on two iterations of the same registry in which every backend
succeeds, the two results are permutations of one another, hence of equal
length.  They need not be equal as sequences: the sample backends "oci" and
"tar" give two different results in the two orders. -/
theorem umbrella_list_ops_perm {ι σ : Type} (impl : PackageManager ι σ)
    (reg entries₁ entries₂ : Registry ι) (h₁ : IsRange reg entries₁)
    (h₂ : IsRange reg entries₂) (ctx : Context) (x₁ x₂ : Run σ) :
    (∀ (entity : Component) (opts : List PackOption),
      ResultFixed (fun m => impl.Pack m ctx entity opts) reg →
      (∀ r ∈ returns (fun m => impl.Pack m ctx entity opts) entries₁ x₁.world, r.2 = none) →
      (∀ r ∈ returns (fun m => impl.Pack m ctx entity opts) entries₂ x₂.world, r.2 = none) →
        List.Perm (umbrella.Pack impl ctx entity opts entries₁ x₁).1.1
          (umbrella.Pack impl ctx entity opts entries₂ x₂).1.1 ∧
        (umbrella.Pack impl ctx entity opts entries₁ x₁).1.1.length =
          (umbrella.Pack impl ctx entity opts entries₂ x₂).1.1.length) ∧
    (∀ (entity : Package) (opts : List UnpackOption),
      ResultFixed (fun m => impl.Unpack m ctx entity opts) reg →
      (∀ r ∈ returns (fun m => impl.Unpack m ctx entity opts) entries₁ x₁.world,
        r.2 = none) →
      (∀ r ∈ returns (fun m => impl.Unpack m ctx entity opts) entries₂ x₂.world,
        r.2 = none) →
        List.Perm (umbrella.Unpack impl ctx entity opts entries₁ x₁).1.1
          (umbrella.Unpack impl ctx entity opts entries₂ x₂).1.1 ∧
        (umbrella.Unpack impl ctx entity opts entries₁ x₁).1.1.length =
          (umbrella.Unpack impl ctx entity opts entries₂ x₂).1.1.length) ∧
    (∀ query : CatalogQuery,
      ResultFixed (fun m => impl.Catalog m ctx query) reg →
      (∀ r ∈ returns (fun m => impl.Catalog m ctx query) entries₁ x₁.world, r.2 = none) →
      (∀ r ∈ returns (fun m => impl.Catalog m ctx query) entries₂ x₂.world, r.2 = none) →
        List.Perm (umbrella.Catalog impl ctx query entries₁ x₁).1.1
          (umbrella.Catalog impl ctx query entries₂ x₂).1.1 ∧
        (umbrella.Catalog impl ctx query entries₁ x₁).1.1.length =
          (umbrella.Catalog impl ctx query entries₂ x₂).1.1.length) ∧
    (umbrella.Pack sample ctx0 ⟨"app"⟩ [] [("a", "oci"), ("b", "tar")] run0).1.1 ≠
      (umbrella.Pack sample ctx0 ⟨"app"⟩ [] [("b", "tar"), ("a", "oci")] run0).1.1 := by
  refine ⟨?_, ?_, ?_, by decide⟩
  · intro entity opts hfix hok₁ hok₂
    simp only [umbrella.Pack, PackLoop_eq_listLoop]
    exact listLoop_perm_of_fixed _ _ _ reg entries₁ entries₂ h₁ h₂ x₁ x₂ hfix hok₁ hok₂
  · intro entity opts hfix hok₁ hok₂
    simp only [umbrella.Unpack, UnpackLoop_eq_listLoop]
    exact listLoop_perm_of_fixed _ _ _ reg entries₁ entries₂ h₁ h₂ x₁ x₂ hfix hok₁ hok₂
  · intro query hfix hok₁ hok₂
    simp only [umbrella.Catalog, CatalogLoop_eq_listLoop]
    exact listLoop_perm_of_fixed _ _ _ reg entries₁ entries₂ h₁ h₂ x₁ x₂ hfix hok₁ hok₂

/-- The sample backends "oci" and "tar" answer `Pack` the same in every world. -/
theorem sample_pack_fixed :
    ResultFixed (fun m => sample.Pack m ctx0 ⟨"app"⟩ []) [("a", "oci"), ("b", "tar")] := by
  intro e _ w w'
  rfl

/-- The two orders of "oci" and "tar": the packages come back swapped. -/
theorem umbrella_list_ops_perm_witness :
    IsRange [("a", "oci"), ("b", "tar")] [("a", "oci"), ("b", "tar")] ∧
      IsRange [("a", "oci"), ("b", "tar")] [("b", "tar"), ("a", "oci")] ∧
      List.Perm (umbrella.Pack sample ctx0 ⟨"app"⟩ [] [("a", "oci"), ("b", "tar")] run0).1.1
        (umbrella.Pack sample ctx0 ⟨"app"⟩ [] [("b", "tar"), ("a", "oci")] run0).1.1 ∧
      (umbrella.Pack sample ctx0 ⟨"app"⟩ [] [("a", "oci"), ("b", "tar")] run0).1.1.length =
        (umbrella.Pack sample ctx0 ⟨"app"⟩ [] [("b", "tar"), ("a", "oci")] run0).1.1.length :=
  ⟨List.Perm.refl _, List.Perm.swap _ _ _,
    (umbrella_list_ops_perm sample [("a", "oci"), ("b", "tar")] [("a", "oci"), ("b", "tar")]
      [("b", "tar"), ("a", "oci")] (List.Perm.refl _) (List.Perm.swap _ _ _) ctx0 run0
      run0).1 ⟨"app"⟩ [] sample_pack_fixed (by decide) (by decide)⟩

/-- C16: on an empty registry, `Update`, `AddSource` and `RemoveSource` return
success, and `Pack`, `Unpack` and `Catalog` return the nil slice with no error;
the run is left as it was: no backend is invoked, nothing is logged, and the
world is untouched. -/
theorem umbrella_empty_registry {ι σ : Type} (impl : PackageManager ι σ) (ctx : Context)
    (source : String) (entity : Component) (popts : List PackOption) (pkg : Package)
    (uopts : List UnpackOption) (query : CatalogQuery) (x : Run σ) :
    umbrella.Update impl ctx (packageManagersInit ι) x = (none, x) ∧
      umbrella.AddSource impl ctx source (packageManagersInit ι) x = (none, x) ∧
      umbrella.RemoveSource impl ctx source (packageManagersInit ι) x = (none, x) ∧
      umbrella.Pack impl ctx entity popts (packageManagersInit ι) x = (([], none), x) ∧
      umbrella.Unpack impl ctx pkg uopts (packageManagersInit ι) x = (([], none), x) ∧
      umbrella.Catalog impl ctx query (packageManagersInit ι) x = (([], none), x) ∧
      invocations (umbrella.Update impl ctx (packageManagersInit ι) x).2.trace =
        invocations x.trace :=
  ⟨rfl, rfl, rfl, rfl, rfl, rfl, rfl⟩

end packmanager

/-! ## Kernel image names -/

namespace target

open packmanager (GoError)

/-- C12: `KernelName` returns an error exactly when the target's `Name()` is the
empty string (the result string is then empty); otherwise it returns no error
and the string `Name() + "_" + platform.Name() + "-" + architecture.Name()`,
which is `Name() + "_" + ArchPlatString()`. -/
theorem KernelName_spec (tc : TargetConfig) :
    ((KernelName tc).2 ≠ none ↔ tc.Name = "") ∧
      (tc.Name = "" →
        KernelName tc = ("", some ⟨"target name not set, cannot determine binary name"⟩)) ∧
      (tc.Name ≠ "" →
        KernelName tc =
          (tc.Name ++ "_" ++ tc.platform.Name ++ "-" ++ tc.architecture.Name, none) ∧
        (KernelName tc).1 = tc.Name ++ "_" ++ tc.ArchPlatString) := by
  by_cases h : tc.Name = ""
  · simp [KernelName, h]
  · simp [KernelName, h, TargetConfig.ArchPlatString, String.append_assoc]

/-- C13: `KernelDbgName` fails exactly when `KernelName` fails, and then returns
the same error with the empty string; whenever `KernelName` returns a name `n`
with no error, `KernelDbgName` returns `n` followed by ".dbg", with no
error. -/
theorem KernelDbgName_spec (tc : TargetConfig) :
    ((KernelDbgName tc).2 ≠ none ↔ (KernelName tc).2 ≠ none) ∧
      (∀ err : GoError, (KernelName tc).2 = some err → KernelDbgName tc = ("", some err)) ∧
      (∀ n : String, KernelName tc = (n, none) → KernelDbgName tc = (n ++ ".dbg", none)) := by
  cases h : (KernelName tc).2 with
  | some err =>
    refine ⟨by simp [KernelDbgName, h], ?_, ?_⟩
    · intro err' herr'
      cases herr'
      simp [KernelDbgName, h]
    · intro n hn
      rw [hn] at h
      cases h
  | none =>
    refine ⟨by simp [KernelDbgName, h], ?_, ?_⟩
    · intro err herr
      cases herr
    · intro n hn
      simp [KernelDbgName, h, hn]

end target

/-! ## Normalised project names -/

namespace app

theorem inClass_iff (c : Char) :
    inClass c = true ↔
      (('a'.toNat ≤ c.toNat ∧ c.toNat ≤ 'z'.toNat) ∨
        ('0'.toNat ≤ c.toNat ∧ c.toNat ≤ '9'.toNat) ∨ c = '_' ∨ c = '-') := by
  simp [inClass]

/-- Joining one-character strings with the empty separator gives back the
characters. -/
theorem Join_singletons (l : List Char) :
    (Join (l.map (fun c => (⟨[c]⟩ : String))) "").data = l := by
  induction l with
  | nil => rfl
  | cons c rest ih =>
    cases rest with
    | nil => rfl
    | cons d rest' =>
      simp only [List.map_cons, Join, String.data_append] at ih ⊢
      rw [ih]
      rfl

/-- The characters of a normalised name. -/
theorem normalizeProjectName_data (table : Char → Char) (s : String) :
    (normalizeProjectName table s).data =
      ((s.data.map (unicodeToLower table)).filter inClass).dropWhile
        (fun c => c = '_' ∨ c = '-') := by
  simp only [normalizeProjectName, TrimLeft, FindAllString, ToLower, Join_singletons]
  congr 1
  funext c
  simp only [List.contains, List.elem, Bool.decide_or]
  by_cases h₁ : c = '_'
  · subst h₁; rfl
  · by_cases h₂ : c = '-'
    · subst h₂; rfl
    · have e₁ : (c == '_') = false := by simpa using h₁
      have e₂ : (c == '-') = false := by simpa using h₂
      simp [e₁, e₂, h₁, h₂]

/-- The lower-casing leaves the characters of the class alone. -/
theorem unicodeToLower_of_inClass (table : Char → Char) (c : Char) (h : inClass c = true) :
    unicodeToLower table c = c := by
  rw [inClass_iff] at h
  have h' : c.toNat ≤ 127 ∧ ¬ (c.toNat ≥ 65 ∧ c.toNat ≤ 90) := by
    rcases h with h | h | h | h
    · have : 'a'.toNat = 97 := rfl
      have : 'z'.toNat = 122 := rfl
      omega
    · have : '0'.toNat = 48 := rfl
      have : '9'.toNat = 57 := rfl
      omega
    · subst h; decide
    · subst h; decide
  simp only [unicodeToLower, h'.1, if_true, Char.toLower]
  simp [h'.2]

/-- A name made of characters of the class, not starting with `_` or `-`, is
its own normalisation. -/
theorem normalizeProjectName_of_clean (table : Char → Char) (s : String)
    (hclass : ∀ c ∈ s.data, inClass c = true)
    (hhead : s.data.head? ≠ some '_' ∧ s.data.head? ≠ some '-') :
    normalizeProjectName table s = s := by
  have hmap : s.data.map (unicodeToLower table) = s.data := by
    conv_rhs => rw [← List.map_id s.data]
    exact List.map_congr_left (fun c hc => unicodeToLower_of_inClass table c (hclass c hc))
  have hfilter : s.data.filter inClass = s.data := List.filter_eq_self.2 hclass
  have hdrop : s.data.dropWhile (fun c => decide (c = '_' ∨ c = '-')) = s.data := by
    cases hd : s.data with
    | nil => rfl
    | cons c rest =>
      rw [hd] at hhead
      simp only [List.head?_cons, ne_eq, Option.some.injEq] at hhead
      simp [List.dropWhile_cons, hhead.1, hhead.2]
  have hdata := normalizeProjectName_data table s
  rw [hmap, hfilter, hdrop] at hdata
  exact String.ext hdata

theorem normalizeProjectName_mem (table : Char → Char) (s : String) (c : Char)
    (hc : c ∈ (normalizeProjectName table s).data) : inClass c = true := by
  rw [normalizeProjectName_data] at hc
  have hc' := (List.dropWhile_sublist _).subset hc
  exact (List.mem_filter.1 hc').2

theorem normalizeProjectName_head (table : Char → Char) (s : String) :
    (normalizeProjectName table s).data.head? ≠ some '_' ∧
      (normalizeProjectName table s).data.head? ≠ some '-' := by
  rw [normalizeProjectName_data]
  have h := List.head?_dropWhile_not (fun c => decide (c = '_' ∨ c = '-'))
    ((s.data.map (unicodeToLower table)).filter inClass)
  constructor
  · intro e
    rw [e] at h
    simp at h
  · intro e
    rw [e] at h
    simp at h

/-- C17: every character of `normalizeProjectName(s)` is one of `a`-`z`, `0`-`9`,
`_` and `-`, and the result does not begin with `_` or `-`: it is empty or
starts with a lower-case letter or a digit. -/
theorem normalizeProjectName_charset (table : Char → Char) (s : String) :
    (∀ c ∈ (normalizeProjectName table s).data,
        ('a'.toNat ≤ c.toNat ∧ c.toNat ≤ 'z'.toNat) ∨
          ('0'.toNat ≤ c.toNat ∧ c.toNat ≤ '9'.toNat) ∨ c = '_' ∨ c = '-') ∧
      (normalizeProjectName table s).data.head? ≠ some '_' ∧
      (normalizeProjectName table s).data.head? ≠ some '-' ∧
      (normalizeProjectName table s = "" ∨
        ∃ c rest, (normalizeProjectName table s).data = c :: rest ∧
          (('a'.toNat ≤ c.toNat ∧ c.toNat ≤ 'z'.toNat) ∨
            ('0'.toNat ≤ c.toNat ∧ c.toNat ≤ '9'.toNat))) := by
  have hmem := normalizeProjectName_mem table s
  have hhead := normalizeProjectName_head table s
  refine ⟨fun c hc => (inClass_iff c).1 (hmem c hc), hhead.1, hhead.2, ?_⟩
  cases hd : (normalizeProjectName table s).data with
  | nil => exact Or.inl (String.ext hd)
  | cons c rest =>
    right
    refine ⟨c, rest, rfl, ?_⟩
    rw [hd] at hhead
    simp only [List.head?_cons, ne_eq, Option.some.injEq] at hhead
    rcases (inClass_iff c).1 (hmem c (by simp [hd])) with h | h | h | h
    · exact Or.inl h
    · exact Or.inr h
    · exact absurd h hhead.1
    · exact absurd h hhead.2

/-- C18: `normalizeProjectName` is idempotent, and it returns unchanged every
string made only of the characters `a`-`z`, `0`-`9`, `_` and `-` that does not
begin with `_` or `-`. -/
theorem normalizeProjectName_idempotent (table : Char → Char) (s : String) :
    normalizeProjectName table (normalizeProjectName table s) = normalizeProjectName table s ∧
      ((∀ c ∈ s.data,
          ('a'.toNat ≤ c.toNat ∧ c.toNat ≤ 'z'.toNat) ∨
            ('0'.toNat ≤ c.toNat ∧ c.toNat ≤ '9'.toNat) ∨ c = '_' ∨ c = '-') →
        s.data.head? ≠ some '_' → s.data.head? ≠ some '-' →
        normalizeProjectName table s = s) :=
  ⟨normalizeProjectName_of_clean table _ (normalizeProjectName_mem table s)
      (normalizeProjectName_head table s),
    fun hclass h₁ h₂ =>
      normalizeProjectName_of_clean table s (fun c hc => (inClass_iff c).2 (hclass c hc))
        ⟨h₁, h₂⟩⟩

/-- A name with capitals, a blank and leading dashes is normalised once and for
all; a clean name is left as it is. -/
theorem normalizeProjectName_idempotent_witness :
    normalizeProjectName id (normalizeProjectName id "--My_Project 42!") =
        normalizeProjectName id "--My_Project 42!" ∧
      normalizeProjectName id "my-app_2" = "my-app_2" :=
  ⟨(normalizeProjectName_idempotent id "--My_Project 42!").1,
    (normalizeProjectName_idempotent id "my-app_2").2 (by decide) (by decide) (by decide)⟩

end app
